import Mathlib

/-!
Verification development for `fine_tuning.py`: a BERT fine-tuning script for
four-class news-headline classification.  The script's data model and
operations are shallowly embedded below:

* the pandas one-hot label encoding (`pd.get_dummies` + column selection),
* the two-stage stratified `train_test_split` pipeline,
* the `CreateDataset` adapter and the tokenizer's `encode_plus` contract,
* the evaluation function `calculate_accuracy`,
* the training loop `train_model` as an event-trace semantics.

Library calls (pandas, scikit-learn, the HuggingFace tokenizer, torch
data loaders) are embedded by their documented deterministic behaviour;
sources of randomness (the seeded shuffles) appear as explicit permutation
parameters, and real-valued network outputs appear as abstract values.
-/

/-- A row of the filtered table: `(TITLE, CATEGORY)`. -/
structure Row where
  title : String
  category : String
deriving DecidableEq, Repr

/-- Position of the first occurrence of `w` in `l`, if any
    (column lookup by name, as pandas does when a column list is given). -/
def findPos (w : String) : List String → Option Nat
  | [] => none
  | c :: l => if c = w then some 0 else (findPos w l).map (· + 1)

/-- Sorted list of the distinct values of a column: the column order pandas
    `get_dummies` produces for a string-valued column. -/
def uniqueSorted (l : List String) : List String :=
  List.insertionSort (fun a b => a ≤ b) l.dedup

/-- `pd.get_dummies(part, columns=['CATEGORY'])` restricted to the dummy
    columns: the header of dummy column names (prefix `CATEGORY_`, distinct
    values in sorted order) plus one 0/1 indicator row per input row. -/
def get_dummies (cats : List String) : List String × List (List Nat) :=
  let u := uniqueSorted cats
  (u.map (fun v => "CATEGORY_" ++ v),
   cats.map (fun c => u.map (fun v => if c = v then 1 else 0)))

/-- Resolve a list of requested column names to their positions in a header;
    `none` models the `KeyError` raised when a column is missing. -/
def lookupCols (wanted : List String) (hdr : List String) : Option (List Nat) :=
  match wanted with
  | [] => some []
  | w :: ws =>
    match findPos w hdr, lookupCols ws hdr with
    | some j, some js => some (j :: js)
    | _, _ => none

/-- Select named columns from a `(header, rows)` table. -/
def selectColumns (wanted : List String) (hdr : List String)
    (rows : List (List Nat)) : Option (List (List Nat)) :=
  match lookupCols wanted hdr with
  | none => none
  | some idxs => some (rows.map (fun r => idxs.map (fun j => r.getD j 0)))

/-- The fixed class order used by the script when slicing the dummy matrix. -/
def dummyClasses : List String := ["b", "e", "t", "m"]

/-- The canonical one-hot column order of the script:
    `['CATEGORY_b', 'CATEGORY_e', 'CATEGORY_t', 'CATEGORY_m']`. -/
def dummyCols : List String := dummyClasses.map (fun v => "CATEGORY_" ++ v)

/-- The label encoder of the script:
    `pd.get_dummies(part, columns=['CATEGORY'])[dummyCols].values`,
    applied identically to each of the three partitions. -/
def oneHotEncode (cats : List String) : Option (List (List Nat)) :=
  selectColumns dummyCols (get_dummies cats).1 (get_dummies cats).2

theorem findPos_getD {w : String} {l : List String} {j : Nat}
    (h : findPos w l = some j) : l.getD j "" = w ∧ j < l.length := by
  induction l generalizing j with
  | nil => simp [findPos] at h
  | cons c l ih =>
    by_cases hc : c = w
    · simp [findPos, hc] at h
      subst h
      simp [hc]
    · simp [findPos, hc] at h
      obtain ⟨j0, hj0, hj⟩ := h
      obtain ⟨h1, h2⟩ := ih hj0
      subst hj
      refine ⟨?_, by simpa using Nat.succ_lt_succ h2⟩
      rw [List.getD_cons_succ]
      exact h1

theorem findPos_isSome_of_mem {w : String} {l : List String} (h : w ∈ l) :
    ∃ j, findPos w l = some j := by
  induction l with
  | nil => simp at h
  | cons c l ih =>
    by_cases hc : c = w
    · exact ⟨0, by simp [findPos, hc]⟩
    · rcases List.mem_cons.mp h with h | h
      · exact absurd h.symm hc
      · obtain ⟨j, hj⟩ := ih h
        exact ⟨j + 1, by simp [findPos, hc, hj]⟩

theorem append_left_cancel {p a b : String} (h : p ++ a = p ++ b) : a = b := by
  have hd : (p ++ a).data = (p ++ b).data := by rw [h]
  rw [String.data_append, String.data_append] at hd
  exact String.ext (List.append_cancel_left hd)

theorem findPos_map_append (p : String) (v : String) (u : List String) :
    findPos (p ++ v) (u.map (fun x => p ++ x)) = findPos v u := by
  induction u with
  | nil => simp [findPos]
  | cons c u ih =>
    by_cases hc : c = v
    · simp [findPos, hc]
    · have hne : ¬(p ++ c = p ++ v) := fun h => hc (append_left_cancel h)
      simp [findPos, hc, hne, ih]

theorem getD_map_indicator (c : String) (u : List String) (j : Nat)
    (hj : j < u.length) :
    (u.map (fun v => if c = v then 1 else 0)).getD j 0
      = if c = u.getD j "" then 1 else 0 := by
  induction u generalizing j with
  | nil => simp at hj
  | cons a u ih =>
    cases j with
    | zero => simp
    | succ j => simpa using ih j (by simpa using Nat.lt_of_succ_lt_succ hj)

theorem mem_uniqueSorted {v : String} {l : List String} :
    v ∈ uniqueSorted l ↔ v ∈ l := by
  unfold uniqueSorted
  rw [List.mem_insertionSort, List.mem_dedup]

/-- C1. For each of the three partitions the label encoder succeeds and
produces a dense 0/1 matrix with one row per example and one column per
class; row `i` is the indicator of row `i`'s category under the fixed
canonical class ordering `b, e, t, m` (the same constant column list
`dummyCols` for every partition), so every row sums to exactly 1. -/
theorem oneHotEncode_spec (cats : List String)
    (hsub : ∀ c ∈ cats, c ∈ dummyClasses)
    (hall : ∀ v ∈ dummyClasses, v ∈ cats) :
    oneHotEncode cats =
      some (cats.map (fun c => dummyClasses.map (fun v => if c = v then 1 else 0))) ∧
    ∀ m, oneHotEncode cats = some m →
      m.length = cats.length ∧
      (∀ r ∈ m, r.length = dummyClasses.length) ∧
      (∀ r ∈ m, r.sum = 1) := by
  have hmem : ∀ v ∈ dummyClasses, v ∈ uniqueSorted cats := by
    intro v hv
    exact mem_uniqueSorted.mpr (hall v hv)
  have hfind : ∀ v ∈ dummyClasses, ∃ j,
      findPos ("CATEGORY_" ++ v) ((uniqueSorted cats).map (fun x => "CATEGORY_" ++ x)) = some j ∧
      (uniqueSorted cats).getD j "" = v ∧ j < (uniqueSorted cats).length := by
    intro v hv
    obtain ⟨j, hj⟩ := findPos_isSome_of_mem (hmem v hv)
    refine ⟨j, ?_, ?_, ?_⟩
    · rw [findPos_map_append]; exact hj
    · exact (findPos_getD hj).1
    · exact (findPos_getD hj).2
  obtain ⟨jb, hjb, hb1, hb2⟩ := hfind "b" (by simp [dummyClasses])
  obtain ⟨je, hje, he1, he2⟩ := hfind "e" (by simp [dummyClasses])
  obtain ⟨jt, hjt, ht1, ht2⟩ := hfind "t" (by simp [dummyClasses])
  obtain ⟨jm, hjm, hm1, hm2⟩ := hfind "m" (by simp [dummyClasses])
  have hmain : oneHotEncode cats =
      some (cats.map (fun c => dummyClasses.map (fun v => if c = v then 1 else 0))) := by
    unfold oneHotEncode selectColumns get_dummies dummyCols
    simp only [dummyClasses, List.map_cons, List.map_nil, lookupCols]
    rw [hjb, hje, hjt, hjm]
    simp only [Option.some.injEq]
    rw [List.map_map]
    refine List.map_congr_left ?_
    intro c _
    simp only [Function.comp, List.map_cons, List.map_nil]
    rw [getD_map_indicator c _ jb hb2, getD_map_indicator c _ je he2,
        getD_map_indicator c _ jt ht2, getD_map_indicator c _ jm hm2,
        hb1, he1, ht1, hm1]
  refine ⟨hmain, ?_⟩
  intro m hm
  rw [hmain] at hm
  have hm' : m = cats.map (fun c => dummyClasses.map (fun v => if c = v then 1 else 0)) :=
    (Option.some.injEq _ _).mp hm.symm
  subst hm'
  refine ⟨by simp, ?_, ?_⟩
  · intro r hr
    obtain ⟨c, _, rfl⟩ := List.mem_map.mp hr
    simp
  · intro r hr
    obtain ⟨c, hc, rfl⟩ := List.mem_map.mp hr
    have hcm := hsub c hc
    simp only [dummyClasses, List.mem_cons, List.mem_singleton, List.not_mem_nil, or_false] at hcm
    rcases hcm with rfl | rfl | rfl | rfl <;> simp [dummyClasses]

/-- Witness for `oneHotEncode_spec` at a concrete five-row partition. -/
theorem oneHotEncode_spec_witness :
    oneHotEncode ["e", "b", "t", "m", "b"] =
      some [[0, 1, 0, 0], [1, 0, 0, 0], [0, 0, 1, 0], [0, 0, 0, 1], [1, 0, 0, 0]] := by
  have h := oneHotEncode_spec ["e", "b", "t", "m", "b"]
    (by intro c hc; fin_cases hc <;> simp [dummyClasses])
    (by intro v hv; fin_cases hv <;> simp)
  rw [h.1]
  rfl

/-! ### Dataset adapter (`CreateDataset`) and the tokenizer contract -/

/-- An abstract subword tokenizer: a map from text to raw token ids plus the
    ids of the special classification, separator and padding tokens.  The
    concrete BERT vocabulary is external to the script; only the documented
    `encode_plus` contract below is relied upon. -/
structure Tokenizer where
  rawTokens : String → List Nat
  clsId : Nat
  sepId : Nat
  padId : Nat

/-- `tokenizer.encode_plus(text, add_special_tokens=True, max_length=max_len,
    pad_to_max_length=True)`: wrap the raw tokens in the two special tokens,
    truncate to `max_length` when too long (keeping both special tokens) and
    right-pad with the pad id otherwise; the attention mask is 1 on real
    tokens and 0 on padding. -/
def encode_plus (tk : Tokenizer) (text : String) (max_length : Nat) :
    List Nat × List Nat :=
  let raw := tk.rawTokens text
  let withSpecial :=
    if raw.length + 2 ≤ max_length then tk.clsId :: raw ++ [tk.sepId]
    else tk.clsId :: raw.take (max_length - 2) ++ [tk.sepId]
  (withSpecial ++ List.replicate (max_length - withSpecial.length) tk.padId,
   List.replicate withSpecial.length 1 ++ List.replicate (max_length - withSpecial.length) 0)

/-- One value returned by `CreateDataset.__getitem__`:
    the dict `{'ids': ..., 'mask': ..., 'labels': ...}`. -/
structure Item where
  ids : List Nat
  mask : List Nat
  labels : List ℚ
deriving DecidableEq, Repr

/-- The `CreateDataset` adapter: exactly the fields stored by `__init__`. -/
structure CreateDataset where
  X : List String
  y : List (List ℚ)
  tokenizer : Tokenizer
  max_len : Nat

/-- `__len__`: returns `len(self.y)`. -/
def CreateDataset.size (d : CreateDataset) : Nat := d.y.length

/-- `__getitem__`: tokenize `self.X[index]` via `encode_plus` and pair the
    resulting ids and mask with `self.y[index]`; `none` models the exception
    of an out-of-range access. -/
def CreateDataset.getItem (d : CreateDataset) (index : Nat) : Option Item :=
  match d.X.get? index, d.y.get? index with
  | some text, some lab =>
    some { ids := (encode_plus d.tokenizer text d.max_len).1,
           mask := (encode_plus d.tokenizer text d.max_len).2,
           labels := lab }
  | _, _ => none

theorem encode_plus_length (tk : Tokenizer) (text : String) (max_length : Nat)
    (h : 2 ≤ max_length) :
    (encode_plus tk text max_length).1.length = max_length ∧
    (encode_plus tk text max_length).2.length = max_length := by
  unfold encode_plus
  by_cases hc : (tk.rawTokens text).length + 2 ≤ max_length
  · simp only [hc, if_true]
    constructor <;> simp <;> omega
  · simp only [hc, if_false]
    have hlen : max_length - 2 ≤ (tk.rawTokens text).length := by omega
    constructor <;> simp [List.length_take, Nat.min_eq_left hlen] <;> omega

/-- C6. For every in-range index, `CreateDataset.__getitem__` succeeds and
returns the `encode_plus` tokenization of that example's text (special tokens
included, padded/truncated to the configured maximum length), with token ids
and attention mask both exactly `max_len` long, paired with that example's
label vector. -/
theorem CreateDataset_getItem_spec (d : CreateDataset) (index : Nat)
    (hx : index < d.X.length) (hy : index < d.size) (hlen : 2 ≤ d.max_len) :
    ∃ it, d.getItem index = some it ∧
      it.ids.length = d.max_len ∧
      it.mask.length = d.max_len ∧
      it.ids = (encode_plus d.tokenizer (d.X.getD index "") d.max_len).1 ∧
      it.mask = (encode_plus d.tokenizer (d.X.getD index "") d.max_len).2 ∧
      it.labels = d.y.getD index [] := by
  have hx' : d.X.get? index = some (d.X.getD index "") := by
    rw [List.getD_eq_getD_get?, List.get?_eq_get hx]
    simp
  have hy0 : index < d.y.length := hy
  have hy' : d.y.get? index = some (d.y.getD index []) := by
    rw [List.getD_eq_getD_get?, List.get?_eq_get hy0]
    simp
  refine ⟨{ ids := (encode_plus d.tokenizer (d.X.getD index "") d.max_len).1,
            mask := (encode_plus d.tokenizer (d.X.getD index "") d.max_len).2,
            labels := d.y.getD index [] }, ?_, ?_, ?_, rfl, rfl, rfl⟩
  · unfold CreateDataset.getItem
    rw [hx', hy']
  · exact (encode_plus_length d.tokenizer _ d.max_len hlen).1
  · exact (encode_plus_length d.tokenizer _ d.max_len hlen).2

/-- Witness for `CreateDataset_getItem_spec` at a one-example dataset with
the reference maximum length 20. -/
theorem CreateDataset_getItem_spec_witness :
    ∃ it, CreateDataset.getItem
        { X := ["sample headline"], y := [[1, 0, 0, 0]],
          tokenizer := { rawTokens := fun _ => [5, 6], clsId := 101, sepId := 102, padId := 0 },
          max_len := 20 } 0 = some it ∧
      it.ids.length = 20 ∧ it.mask.length = 20 ∧
      it.ids = (encode_plus { rawTokens := fun _ => [5, 6], clsId := 101, sepId := 102, padId := 0 } "sample headline" 20).1 ∧
      it.mask = (encode_plus { rawTokens := fun _ => [5, 6], clsId := 101, sepId := 102, padId := 0 } "sample headline" 20).2 ∧
      it.labels = [1, 0, 0, 0] := by
  have h := CreateDataset_getItem_spec
    { X := ["sample headline"], y := [[1, 0, 0, 0]],
      tokenizer := { rawTokens := fun _ => [5, 6], clsId := 101, sepId := 102, padId := 0 },
      max_len := 20 } 0 (by simp) (by simp [CreateDataset.size]) (by norm_num)
  simpa using h

/-! ### Data loaders and the evaluator `calculate_accuracy` -/

/-- Default item used to totalize list indexing inside batch assembly. -/
def defaultItem : Item := { ids := [], mask := [], labels := [] }

/-- Split an index order into consecutive batches of size `bs`
    (torch `DataLoader` batching, `drop_last=False`); fuel-driven so the
    definition is structural. -/
def chunksOfAux (bs : Nat) : Nat → List Nat → List (List Nat)
  | 0, _ => []
  | _, [] => []
  | fuel + 1, x :: l => (x :: l).take bs :: chunksOfAux bs fuel ((x :: l).drop bs)

/-- All batches of size `bs` over an index order. -/
def chunksOf (bs : Nat) (l : List Nat) : List (List Nat) :=
  chunksOfAux bs l.length l

/-- The batches a torch `DataLoader` yields over item sequence `ds` given a
    batch size and the epoch's index order (`List.range` when
    `shuffle=False`, a seeded permutation when `shuffle=True`). -/
def dataLoaderBatches (ds : List Item) (batch_size : Nat) (order : List Nat) :
    List (List Item) :=
  (chunksOf batch_size order).map (fun ch => ch.map (fun i => ds.getD i defaultItem))

/-- `torch.argmax` over a vector: index of the first maximal entry. -/
def argmaxAux (best : ℚ) (bestIdx i : Nat) : List ℚ → Nat
  | [] => bestIdx
  | x :: l => if best < x then argmaxAux x i (i + 1) l else argmaxAux best bestIdx (i + 1) l

/-- `torch.argmax(v, dim=-1)` for one row `v`. -/
def argmax : List ℚ → Nat
  | [] => 0
  | x :: l => argmaxAux x 0 1 l

/-- `v` is one-hot with its single 1 at position `j`. -/
def IsOneHot (v : List ℚ) (j : Nat) : Prop :=
  j < v.length ∧ v.getD j 0 = 1 ∧ ∀ k < v.length, k ≠ j → v.getD k 0 = 0

/-- Per-batch correct-prediction count:
    `(pred == labels).sum()` for `pred = argmax(outputs)`,
    `labels = argmax(labels)`. -/
def countCorrect (net : List Item → List (List ℚ)) (batch : List Item) : Nat :=
  ((net batch).zip (batch.map (fun it => it.labels))).countP
    (fun p => argmax p.1 == argmax p.2)

/-- The observable effects of one `calculate_accuracy` call: the loader
    configuration it builds (`batch_size=len(dataset)`, `shuffle=False`),
    the gradient mode of the `torch.no_grad()` block, the batches drawn,
    and the returned ratio `correct / total`. -/
structure EvalRun where
  gradEnabled : Bool
  batchSize : Nat
  shuffled : Bool
  batches : List (List Item)
  accuracy : ℚ

/-- `calculate_accuracy(model, dataset, device)`: one full-size unshuffled
    batch, forward pass per batch, count matching argmaxes, return
    `correct / total`.  `net` is the model's eval-mode batched forward
    function. -/
def calculate_accuracy_run (net : List Item → List (List ℚ)) (ds : List Item) :
    EvalRun :=
  let batches := dataLoaderBatches ds ds.length (List.range ds.length)
  let tc := batches.foldl
    (fun (acc : Nat × Nat) b => (acc.1 + b.length, acc.2 + countCorrect net b)) (0, 0)
  { gradEnabled := false, batchSize := ds.length, shuffled := false,
    batches := batches, accuracy := (tc.2 : ℚ) / (tc.1 : ℚ) }

/-- The value `calculate_accuracy` returns. -/
def calculate_accuracy (net : List Item → List (List ℚ)) (ds : List Item) : ℚ :=
  (calculate_accuracy_run net ds).accuracy

theorem chunksOfAux_nil (bs fuel : Nat) : chunksOfAux bs fuel [] = [] := by
  cases fuel <;> rfl

theorem chunksOf_length_self (l : List Nat) (h : l ≠ []) :
    chunksOf l.length l = [l] := by
  cases l with
  | nil => exact absurd rfl h
  | cons x t =>
    have htake : (x :: t).take (t.length + 1) = x :: t := by
      have := List.take_length (x :: t)
      simpa using this
    have hdrop : (x :: t).drop (t.length + 1) = [] := by
      have := List.drop_length (x :: t)
      simpa using this
    unfold chunksOf chunksOfAux
    simp only [List.length_cons]
    rw [htake, hdrop, chunksOfAux_nil]

theorem map_getD_range (ds : List Item) :
    (List.range ds.length).map (fun i => ds.getD i defaultItem) = ds := by
  induction ds with
  | nil => rfl
  | cons x t ih =>
    rw [List.length_cons, List.range_succ_eq_map, List.map_cons, List.map_map]
    refine congrArg _ ?_
    have hfun : ((fun i => (x :: t).getD i defaultItem) ∘ Nat.succ)
        = fun i => t.getD i defaultItem := by
      funext i
      simp [Function.comp, List.getD_cons_succ]
    rw [hfun, ih]

theorem argmaxAux_of_all_le (best : ℚ) (bestIdx i : Nat) (l : List ℚ)
    (h : ∀ x ∈ l, x ≤ best) : argmaxAux best bestIdx i l = bestIdx := by
  induction l generalizing i with
  | nil => rfl
  | cons x t ih =>
    have hx : ¬best < x := not_lt.mpr (h x (List.mem_cons_self x t))
    rw [argmaxAux, if_neg hx]
    exact ih (i + 1) (fun y hy => h y (List.mem_cons_of_mem x hy))

theorem argmaxAux_zeros_then_one (l : List ℚ) (k : Nat) (bi i : Nat)
    (hk : k < l.length)
    (hbefore : ∀ m < k, l.getD m 0 = 0)
    (hat : l.getD k 0 = 1)
    (hafter : ∀ m < l.length, m ≠ k → l.getD m 0 = 0) :
    argmaxAux 0 bi i l = i + k := by
  induction l generalizing k bi i with
  | nil => simp at hk
  | cons x t ih =>
    cases k with
    | zero =>
      have hx : x = 1 := by simpa using hat
      rw [argmaxAux, hx, if_pos (by norm_num)]
      rw [argmaxAux_of_all_le 1 i (i + 1) t ?_, Nat.add_zero]
      intro y hy
      obtain ⟨m, hm⟩ := List.get_of_mem hy
      have := hafter (m + 1) (by simpa using Nat.succ_lt_succ m.isLt) (Nat.succ_ne_zero m)
      rw [List.getD_cons_succ] at this
      rw [List.getD_eq_getD_get?, List.get?_eq_get m.isLt] at this
      simp only [Option.getD_some] at this
      rw [← hm] at *
      rw [this]
      norm_num
    | succ k =>
      have hx : x = 0 := by simpa using hbefore 0 (Nat.succ_pos k)
      rw [argmaxAux, hx, if_neg (by norm_num)]
      have := ih k bi (i + 1) (by simpa using Nat.lt_of_succ_lt_succ hk)
        (fun m hm => by
          have := hbefore (m + 1) (Nat.succ_lt_succ hm)
          rwa [List.getD_cons_succ] at this)
        (by have := hat; rwa [List.getD_cons_succ] at this)
        (fun m hm hne => by
          have := hafter (m + 1) (by simpa using Nat.succ_lt_succ hm)
            (fun h => hne (Nat.succ_injective h))
          rwa [List.getD_cons_succ] at this)
      rw [this]
      omega

theorem argmax_of_isOneHot (v : List ℚ) (j : Nat) (h : IsOneHot v j) :
    argmax v = j := by
  obtain ⟨hj, hat, hother⟩ := h
  cases v with
  | nil => simp at hj
  | cons x t =>
    cases j with
    | zero =>
      have hx : x = 1 := by simpa using hat
      rw [argmax, hx]
      rw [show argmaxAux 1 0 1 t = 0 from argmaxAux_of_all_le 1 0 1 t ?_]
      intro y hy
      obtain ⟨m, hm⟩ := List.get_of_mem hy
      have := hother (m + 1) (by simpa using Nat.succ_lt_succ m.isLt) (Nat.succ_ne_zero m)
      rw [List.getD_cons_succ, List.getD_eq_getD_get?, List.get?_eq_get m.isLt] at this
      simp only [Option.getD_some] at this
      rw [← hm, this]
      norm_num
    | succ j =>
      have hx : x = 0 := by simpa using hother 0 (Nat.succ_pos _) (Nat.succ_ne_zero j).symm
      rw [argmax, hx]
      have := argmaxAux_zeros_then_one t j 0 1
        (by simpa using Nat.lt_of_succ_lt_succ hj)
        (fun m hm => by
          have := hother (m + 1) (by omega) (by omega)
          rwa [List.getD_cons_succ] at this)
        (by have := hat; rwa [List.getD_cons_succ] at this)
        (fun m hm hne => by
          have := hother (m + 1) (by simpa using Nat.succ_lt_succ hm) (by omega)
          rwa [List.getD_cons_succ] at this)
      rw [this]
      omega

theorem countP_zip_range {α β : Type} (p : α × β → Bool) (d₁ : α) (d₂ : β)
    (l₁ : List α) (l₂ : List β) (h : l₁.length = l₂.length) :
    (l₁.zip l₂).countP p
      = (List.range l₁.length).countP (fun i => p (l₁.getD i d₁, l₂.getD i d₂)) := by
  induction l₁ generalizing l₂ with
  | nil => simp
  | cons a t ih =>
    cases l₂ with
    | nil => simp at h
    | cons b u =>
      have h' : t.length = u.length := by simpa using h
      rw [List.zip_cons_cons, List.countP_cons, List.length_cons,
          List.range_succ_eq_map, List.countP_cons, List.countP_map, ih u h']
      have hcong : List.countP (fun i => p (t.getD i d₁, u.getD i d₂)) (List.range t.length)
          = List.countP ((fun i => p ((a :: t).getD i d₁, (b :: u).getD i d₂)) ∘ Nat.succ)
              (List.range t.length) := by
        refine List.countP_congr ?_
        intro i _
        simp [Function.comp, List.getD_cons_succ]
      rw [← hcong]
      simp [List.getD_cons_zero]

theorem getD_map_labels (ds : List Item) (i : Nat) (hi : i < ds.length) :
    (ds.map (fun it => it.labels)).getD i [] = (ds.getD i defaultItem).labels := by
  rw [List.getD_eq_getD_get?, List.getD_eq_getD_get?, List.get?_map,
      List.get?_eq_get hi]
  simp

/-- C3. For every model forward function and every nonempty dataset whose
labels are one-hot, `calculate_accuracy` draws a single batch whose size is
the whole dataset, in fixed unshuffled order, inside a gradient-disabled
block, and returns (number of examples whose first-maximal logit index
equals the position of the 1 in the one-hot label) divided by the number of
examples. -/
theorem calculate_accuracy_spec (net : List Item → List (List ℚ)) (ds : List Item)
    (lab : Nat → Nat)
    (hne : ds ≠ [])
    (hnet : (net ds).length = ds.length)
    (hlab : ∀ i < ds.length, IsOneHot ((ds.getD i defaultItem).labels) (lab i)) :
    (calculate_accuracy_run net ds).batches = [ds] ∧
    (calculate_accuracy_run net ds).batchSize = ds.length ∧
    (calculate_accuracy_run net ds).shuffled = false ∧
    (calculate_accuracy_run net ds).gradEnabled = false ∧
    calculate_accuracy net ds =
      (((List.range ds.length).countP
        (fun i => argmax ((net ds).getD i []) == lab i) : Nat) : ℚ) / (ds.length : ℚ) := by
  have hlen0 : ds.length ≠ 0 := fun h0 => hne (List.length_eq_zero.mp h0)
  have hrne : List.range ds.length ≠ [] := by
    intro h0
    exact hlen0 (by simpa using congrArg List.length h0)
  have hchunks : chunksOf ds.length (List.range ds.length) = [List.range ds.length] := by
    have := chunksOf_length_self (List.range ds.length) hrne
    rwa [List.length_range] at this
  have hbatches : dataLoaderBatches ds ds.length (List.range ds.length) = [ds] := by
    unfold dataLoaderBatches
    rw [hchunks, List.map_cons, List.map_nil, map_getD_range]
  have hcount : countCorrect net ds =
      (List.range ds.length).countP (fun i => argmax ((net ds).getD i []) == lab i) := by
    unfold countCorrect
    rw [countP_zip_range _ [] [] (net ds) (ds.map (fun it => it.labels))
        (by rw [hnet, List.length_map])]
    rw [hnet]
    refine List.countP_congr ?_
    intro i hi
    have hi' : i < ds.length := List.mem_range.mp hi
    rw [getD_map_labels ds i hi', argmax_of_isOneHot _ (lab i) (hlab i hi')]
  refine ⟨?_, rfl, rfl, rfl, ?_⟩
  · show dataLoaderBatches ds ds.length (List.range ds.length) = [ds]
    exact hbatches
  · show (calculate_accuracy_run net ds).accuracy = _
    unfold calculate_accuracy_run
    simp only [hbatches, List.foldl_cons, List.foldl_nil, Nat.zero_add, hcount]

/-- Witness for `calculate_accuracy_spec`: a two-example dataset where the
model predicts class 0 twice while the labels are one-hot at 0 and 2, so
the accuracy is 1/2. -/
theorem calculate_accuracy_spec_witness :
    calculate_accuracy (fun _ => [[5, 1, 0, 0], [9, 2, 3, 1]])
        [{ ids := [0], mask := [1], labels := [1, 0, 0, 0] },
         { ids := [0], mask := [1], labels := [0, 0, 1, 0] }] = 1 / 2 := by
  have h := calculate_accuracy_spec (fun _ => [[5, 1, 0, 0], [9, 2, 3, 1]])
      [{ ids := [0], mask := [1], labels := [1, 0, 0, 0] },
       { ids := [0], mask := [1], labels := [0, 0, 1, 0] }]
      (fun i => if i = 0 then 0 else 2)
      (by simp) (by simp)
      (by
        intro i hi
        simp only [List.length_cons, List.length_nil] at hi
        interval_cases i <;> (unfold IsOneHot; decide))
  rw [h.2.2.2.2]
  norm_num [List.range_succ, argmax, argmaxAux, defaultItem]

/-! ### The training loop `train_model` as an event-trace semantics -/

/-- The loss criterion object `__main__` constructs:
    `torch.nn.BCEWithLogitsLoss()`. -/
inductive Criterion
  | bceWithLogitsLoss
deriving DecidableEq, Repr

/-- Symbolic loss expressions.  The numeric loss value involves `log`/`exp`
    on floats and is kept abstract; the *structure* of the computation —
    one binary-cross-entropy-with-logits unit per (example, class) pair,
    averaged — is recorded exactly. -/
inductive LossExpr
  | bceUnit (logit target : ℚ)
  | meanOf (terms : List (List LossExpr))

/-- The loss expression `criterion(outputs, labels)` computes:
    `BCEWithLogitsLoss` applies the per-class binary cross-entropy unit to
    every (example, class) pair of the logit matrix against the one-hot
    label matrix and takes the mean. -/
def applyCriterion (c : Criterion) (outputs targets : List (List ℚ)) : LossExpr :=
  match c with
  | .bceWithLogitsLoss =>
    .meanOf ((outputs.zip targets).map
      (fun p => (p.1.zip p.2).map (fun q => LossExpr.bceUnit q.1 q.2)))

/-- The framework operations `train_model` invokes.  `M` is the model
    parameter state, `O` the optimizer state; forward passes of the BERT
    classifier and the numeric value of the criterion are abstract
    real-valued computations, represented by the functions below. -/
structure Framework (M O : Type) where
  forwardTrain : M → List Item → List (List ℚ)
  forwardEval : M → List Item → List (List ℚ)
  zero_grad : O → O
  backward : O → LossExpr → O
  step : M → O → M × O
  criterionVal : List (List ℚ) → List (List ℚ) → ℚ

/-- The serialized bundle `torch.save` writes each epoch: exactly the three
    entries `epoch`, `model_state_dict`, `optimizer_state_dict`. -/
structure Checkpoint (M O : Type) where
  epoch : Nat
  model_state_dict : M
  optimizer_state_dict : O

/-- Observable operations of the training loop, in program order. -/
inductive Event (M O : Type)
  | zeroGrad
  | forward (batch : List Item) (outputs : List (List ℚ))
  | lossCompute (loss : LossExpr)
  | backward
  | optStep
  | checkpointSave (fname : String) (chk : Checkpoint M O)

/-- One training batch, lines 100-113 of the script: zero gradients,
    forward pass, loss computation, backpropagation, optimizer step. -/
def trainBatch {M O : Type} (fw : Framework M O) (criterion : Criterion)
    (st : M × O) (batch : List Item) : (M × O) × List (Event M O) :=
  let o1 := fw.zero_grad st.2
  let outputs := fw.forwardTrain st.1 batch
  let loss := applyCriterion criterion outputs (batch.map (fun it => it.labels))
  let o2 := fw.backward o1 loss
  (fw.step st.1 o2,
   [Event.zeroGrad, Event.forward batch outputs, Event.lossCompute loss,
    Event.backward, Event.optStep])

/-- The inner `for data in dataloader_train` loop of one epoch. -/
def trainPhase {M O : Type} (fw : Framework M O) (c : Criterion)
    (st : M × O) (batches : List (List Item)) : (M × O) × List (Event M O) :=
  batches.foldl
    (fun acc b => ((trainBatch fw c acc.1 b).1, acc.2 ++ (trainBatch fw c acc.1 b).2))
    (st, [])

/-- `calculate_loss_and_accuracy(model, criterion, loader, device)`:
    accumulate loss, example count and correct count over the loader's
    batches in eval mode without gradients, return
    `(loss / len(loader), correct / total)`. -/
def calculate_loss_and_accuracy {M O : Type} (fw : Framework M O) (m : M)
    (batches : List (List Item)) : ℚ × ℚ :=
  let r := batches.foldl
    (fun (acc : ℚ × Nat × Nat) b =>
      (acc.1 + fw.criterionVal (fw.forwardEval m b) (b.map (fun it => it.labels)),
       acc.2.1 + b.length,
       acc.2.2 + countCorrect (fw.forwardEval m) b))
    (0, 0, 0)
  (r.1 / (batches.length : ℚ), (r.2.2 : ℚ) / (r.2.1 : ℚ))

/-- One iteration of the epoch loop, lines 94-131: the shuffled training
    pass, the two metric computations, and the checkpoint save.
    `trainOrder e` is the fresh permutation the shuffled train loader draws
    for epoch `e`'s training pass, `metricOrder e` the one it draws when it
    is iterated again for the metrics; the valid loader is unshuffled with
    batch size `len(dataset_valid)`. -/
def runEpoch {M O : Type} (fw : Framework M O) (criterion : Criterion)
    (dataset_train dataset_valid : List Item) (batch_size : Nat)
    (trainOrder metricOrder : Nat → List Nat) (epoch : Nat) (st : M × O) :
    (M × O) × ((ℚ × ℚ) × (ℚ × ℚ)) × List (Event M O) :=
  let p := trainPhase fw criterion st
    (dataLoaderBatches dataset_train batch_size (trainOrder epoch))
  let tm := calculate_loss_and_accuracy fw p.1.1
    (dataLoaderBatches dataset_train batch_size (metricOrder epoch))
  let vm := calculate_loss_and_accuracy fw p.1.1
    (dataLoaderBatches dataset_valid dataset_valid.length (List.range dataset_valid.length))
  (p.1, (tm, vm),
   p.2 ++ [Event.checkpointSave ("checkpoint" ++ toString (epoch + 1) ++ ".pt")
            { epoch := epoch, model_state_dict := p.1.1, optimizer_state_dict := p.1.2 }])

/-- Everything `train_model` produces: the two logs it returns plus the
    final state and the event trace of its execution. -/
structure TrainResult (M O : Type) where
  log_train : List (ℚ × ℚ)
  log_valid : List (ℚ × ℚ)
  finalState : M × O
  trace : List (Event M O)

/-- The value the source function returns:
    `{'train': log_train, 'valid': log_valid}` — exactly two logs. -/
def TrainResult.returnValue {M O : Type} (r : TrainResult M O) :
    List (ℚ × ℚ) × List (ℚ × ℚ) := (r.log_train, r.log_valid)

/-- `train_model(dataset_train, dataset_valid, batch_size, model, criterion,
    optimizer, num_epochs, device)`: run the fixed number of epochs, append
    one `(loss, accuracy)` pair per epoch to each log. -/
def train_model {M O : Type} (fw : Framework M O) (criterion : Criterion)
    (dataset_train dataset_valid : List Item) (batch_size : Nat)
    (trainOrder metricOrder : Nat → List Nat) (num_epochs : Nat) (st0 : M × O) :
    TrainResult M O :=
  (List.range num_epochs).foldl
    (fun acc epoch =>
      let r := runEpoch fw criterion dataset_train dataset_valid batch_size
        trainOrder metricOrder epoch acc.finalState
      { log_train := acc.log_train ++ [r.2.1.1],
        log_valid := acc.log_valid ++ [r.2.1.2],
        finalState := r.1,
        trace := acc.trace ++ r.2.2 })
    { log_train := [], log_valid := [], finalState := st0, trace := [] }

/-- The model/optimizer state entering each epoch. -/
def epochStates {M O : Type} (fw : Framework M O) (c : Criterion)
    (dt dv : List Item) (bs : Nat) (tOrd mOrd : Nat → List Nat) (st0 : M × O) :
    Nat → M × O
  | 0 => st0
  | e + 1 => (runEpoch fw c dt dv bs tOrd mOrd e
      (epochStates fw c dt dv bs tOrd mOrd st0 e)).1

theorem trainPhase_foldl_acc {M O : Type} (fw : Framework M O) (c : Criterion)
    (batches : List (List Item)) (st : M × O) (evs : List (Event M O)) :
    batches.foldl
      (fun acc b => ((trainBatch fw c acc.1 b).1, acc.2 ++ (trainBatch fw c acc.1 b).2))
      (st, evs)
      = ((trainPhase fw c st batches).1, evs ++ (trainPhase fw c st batches).2) := by
  induction batches generalizing st evs with
  | nil => simp [trainPhase]
  | cons b bs ih =>
    show List.foldl _ ((trainBatch fw c st b).1, evs ++ (trainBatch fw c st b).2) bs = _
    rw [ih]
    have hrhs : trainPhase fw c st (b :: bs)
        = ((trainPhase fw c (trainBatch fw c st b).1 bs).1,
           (trainBatch fw c st b).2 ++ (trainPhase fw c (trainBatch fw c st b).1 bs).2) := by
      show List.foldl _ ((trainBatch fw c st b).1, [] ++ (trainBatch fw c st b).2) bs = _
      rw [ih]
      simp
    rw [hrhs]
    simp

theorem trainPhase_trace {M O : Type} (fw : Framework M O) (c : Criterion)
    (st : M × O) (batches : List (List Item)) :
    (trainPhase fw c st batches).2
      = ((batches.zip (List.scanl (fun s b => (trainBatch fw c s b).1) st batches)).map
          (fun p => (trainBatch fw c p.2 p.1).2)).join := by
  induction batches generalizing st with
  | nil => simp [trainPhase]
  | cons b bs ih =>
    have hstep : trainPhase fw c st (b :: bs)
        = ((trainPhase fw c (trainBatch fw c st b).1 bs).1,
           (trainBatch fw c st b).2 ++ (trainPhase fw c (trainBatch fw c st b).1 bs).2) := by
      show List.foldl _ ((trainBatch fw c st b).1, [] ++ (trainBatch fw c st b).2) bs = _
      rw [trainPhase_foldl_acc]
      simp
    rw [hstep, List.scanl_cons, List.singleton_append, List.zip_cons_cons, List.map_cons]
    show (trainBatch fw c st b).2 ++ (trainPhase fw c (trainBatch fw c st b).1 bs).2 = _
    rw [ih]
    rfl

theorem train_model_unfold {M O : Type} (fw : Framework M O) (c : Criterion)
    (dt dv : List Item) (bs : Nat) (tOrd mOrd : Nat → List Nat) (st0 : M × O)
    (N : Nat) :
    train_model fw c dt dv bs tOrd mOrd N st0 =
      { log_train := (List.range N).map (fun e =>
          (runEpoch fw c dt dv bs tOrd mOrd e (epochStates fw c dt dv bs tOrd mOrd st0 e)).2.1.1),
        log_valid := (List.range N).map (fun e =>
          (runEpoch fw c dt dv bs tOrd mOrd e (epochStates fw c dt dv bs tOrd mOrd st0 e)).2.1.2),
        finalState := epochStates fw c dt dv bs tOrd mOrd st0 N,
        trace := ((List.range N).map (fun e =>
          (runEpoch fw c dt dv bs tOrd mOrd e (epochStates fw c dt dv bs tOrd mOrd st0 e)).2.2)).join } := by
  induction N with
  | zero => rfl
  | succ N ih =>
    unfold train_model at ih ⊢
    rw [List.range_succ, List.foldl_append, List.foldl_cons, List.foldl_nil, ih]
    simp only [TrainResult.mk.injEq, List.map_append, List.map_cons, List.map_nil]
    refine ⟨trivial, trivial, rfl, ?_⟩
    simp

/-- C4. In every epoch of the training loop the training batches are those
of the shuffled train loader (the epoch's fresh permutation chunked by the
batch size), and the epoch's event trace performs, for each batch in that
order, exactly: zero gradients, forward pass, loss computation — the
binary-cross-entropy-with-logits expression applied per class against the
batch's one-hot label rows — backpropagation, and one optimizer step,
followed only by the end-of-epoch checkpoint save; the loop's whole trace
is the concatenation of the epoch traces. -/
theorem train_model_epoch_batch_order {M O : Type} (fw : Framework M O)
    (dt dv : List Item) (bs : Nat) (tOrd mOrd : Nat → List Nat) (N : Nat)
    (st0 : M × O) :
    (train_model fw .bceWithLogitsLoss dt dv bs tOrd mOrd N st0).trace
      = ((List.range N).map (fun e =>
          (runEpoch fw .bceWithLogitsLoss dt dv bs tOrd mOrd e
            (epochStates fw .bceWithLogitsLoss dt dv bs tOrd mOrd st0 e)).2.2)).join
    ∧ ∀ (e : Nat) (st : M × O),
        (runEpoch fw .bceWithLogitsLoss dt dv bs tOrd mOrd e st).2.2
          = (((dataLoaderBatches dt bs (tOrd e)).zip
                (List.scanl (fun s b => (trainBatch fw .bceWithLogitsLoss s b).1) st
                  (dataLoaderBatches dt bs (tOrd e)))).map
              (fun p =>
                [Event.zeroGrad,
                 Event.forward p.1 (fw.forwardTrain p.2.1 p.1),
                 Event.lossCompute (LossExpr.meanOf
                   (((fw.forwardTrain p.2.1 p.1).zip (p.1.map (fun it => it.labels))).map
                     (fun q => (q.1.zip q.2).map (fun r => LossExpr.bceUnit r.1 r.2)))),
                 Event.backward,
                 Event.optStep])).join
            ++ [Event.checkpointSave ("checkpoint" ++ toString (e + 1) ++ ".pt")
                 { epoch := e,
                   model_state_dict := (trainPhase fw .bceWithLogitsLoss st
                     (dataLoaderBatches dt bs (tOrd e))).1.1,
                   optimizer_state_dict := (trainPhase fw .bceWithLogitsLoss st
                     (dataLoaderBatches dt bs (tOrd e))).1.2 }] := by
  constructor
  · exact congrArg TrainResult.trace
      (train_model_unfold fw .bceWithLogitsLoss dt dv bs tOrd mOrd st0 N)
  · intro e st
    unfold runEpoch
    dsimp only
    rw [trainPhase_trace]
    refine congrArg₂ (· ++ ·) ?_ rfl
    refine congrArg List.join (List.map_congr_left ?_)
    intro p hp
    rfl

/-- C5. For every epoch count `N`, `train_model` runs its fixed `N` epochs
with no early stopping and returns exactly the two logs (train and valid);
each log has exactly `N` entries, entry `e` being epoch `e`'s
`(loss, accuracy)` pair, appended one per epoch in epoch order. -/
theorem train_model_logs {M O : Type} (fw : Framework M O) (c : Criterion)
    (dt dv : List Item) (bs : Nat) (tOrd mOrd : Nat → List Nat) (N : Nat)
    (st0 : M × O) :
    (train_model fw c dt dv bs tOrd mOrd N st0).returnValue
      = ((List.range N).map (fun e =>
           (runEpoch fw c dt dv bs tOrd mOrd e
             (epochStates fw c dt dv bs tOrd mOrd st0 e)).2.1.1),
         (List.range N).map (fun e =>
           (runEpoch fw c dt dv bs tOrd mOrd e
             (epochStates fw c dt dv bs tOrd mOrd st0 e)).2.1.2))
    ∧ (train_model fw c dt dv bs tOrd mOrd N st0).log_train.length = N
    ∧ (train_model fw c dt dv bs tOrd mOrd N st0).log_valid.length = N := by
  have h := train_model_unfold fw c dt dv bs tOrd mOrd st0 N
  refine ⟨?_, ?_, ?_⟩
  · rw [h]
    rfl
  · rw [h]
    simp
  · rw [h]
    simp

/-- Recognizer for checkpoint-save events. -/
def Event.isCkptSave {M O : Type} : Event M O → Bool
  | .checkpointSave _ _ => true
  | _ => false

/-- C7. In every epoch exactly one checkpoint file is written: filtering an
epoch's event trace to checkpoint saves leaves exactly one event, whose
filename is keyed by the 1-based epoch number `e + 1` and whose contents
are exactly the serialized bundle {epoch index, model parameter state,
optimizer state}; the loop's whole trace is the concatenation of the epoch
traces. -/
theorem train_model_checkpoints {M O : Type} (fw : Framework M O) (c : Criterion)
    (dt dv : List Item) (bs : Nat) (tOrd mOrd : Nat → List Nat) (N : Nat)
    (st0 : M × O) :
    (train_model fw c dt dv bs tOrd mOrd N st0).trace
      = ((List.range N).map (fun e =>
          (runEpoch fw c dt dv bs tOrd mOrd e
            (epochStates fw c dt dv bs tOrd mOrd st0 e)).2.2)).join
    ∧ ∀ (e : Nat) (st : M × O),
        ((runEpoch fw c dt dv bs tOrd mOrd e st).2.2).filter Event.isCkptSave
          = [Event.checkpointSave ("checkpoint" ++ toString (e + 1) ++ ".pt")
              { epoch := e,
                model_state_dict := (trainPhase fw c st
                  (dataLoaderBatches dt bs (tOrd e))).1.1,
                optimizer_state_dict := (trainPhase fw c st
                  (dataLoaderBatches dt bs (tOrd e))).1.2 }] := by
  refine ⟨congrArg TrainResult.trace
    (train_model_unfold fw c dt dv bs tOrd mOrd st0 N), ?_⟩
  intro e st
  unfold runEpoch
  dsimp only
  rw [List.filter_append]
  have hnil : ((trainPhase fw c st (dataLoaderBatches dt bs (tOrd e))).2).filter
      Event.isCkptSave = [] := by
    rw [List.filter_eq_nil]
    intro a ha
    rw [trainPhase_trace] at ha
    obtain ⟨l, hl, hal⟩ := List.mem_join.mp ha
    obtain ⟨p, hp, rfl⟩ := List.mem_map.mp hl
    have hal' : a ∈ [Event.zeroGrad,
        Event.forward p.1 (fw.forwardTrain p.2.1 p.1),
        Event.lossCompute (applyCriterion c (fw.forwardTrain p.2.1 p.1)
          (p.1.map (fun it => it.labels))),
        Event.backward, Event.optStep] := hal
    simp only [List.mem_cons, List.not_mem_nil, or_false] at hal'
    rcases hal' with rfl | rfl | rfl | rfl | rfl <;> simp [Event.isCkptSave]
  rw [hnil]
  simp [Event.isCkptSave]

/-- C10. For every epoch with 1-based number `k = e + 1`, the training
loop's trace contains a checkpoint save to the file named
`checkpoint{k}.pt` whose stored `epoch` field equals `k - 1`, the 0-based
loop index — one less than the number in the filename. -/
theorem checkpoint_epoch_off_by_one {M O : Type} (fw : Framework M O) (c : Criterion)
    (dt dv : List Item) (bs : Nat) (tOrd mOrd : Nat → List Nat) (N : Nat)
    (st0 : M × O) (e : Nat) (he : e < N) :
    ∃ chk : Checkpoint M O,
      Event.checkpointSave ("checkpoint" ++ toString (e + 1) ++ ".pt") chk
        ∈ (train_model fw c dt dv bs tOrd mOrd N st0).trace
      ∧ chk.epoch = (e + 1) - 1 := by
  refine ⟨{ epoch := e,
            model_state_dict := (trainPhase fw c
              (epochStates fw c dt dv bs tOrd mOrd st0 e)
              (dataLoaderBatches dt bs (tOrd e))).1.1,
            optimizer_state_dict := (trainPhase fw c
              (epochStates fw c dt dv bs tOrd mOrd st0 e)
              (dataLoaderBatches dt bs (tOrd e))).1.2 }, ?_, rfl⟩
  rw [congrArg TrainResult.trace (train_model_unfold fw c dt dv bs tOrd mOrd st0 N)]
  refine List.mem_join.mpr
    ⟨(runEpoch fw c dt dv bs tOrd mOrd e
        (epochStates fw c dt dv bs tOrd mOrd st0 e)).2.2, ?_, ?_⟩
  · exact List.mem_map.mpr ⟨e, List.mem_range.mpr he, rfl⟩
  · exact List.mem_append_right _ (List.mem_singleton.mpr rfl)

/-- Witness for `checkpoint_epoch_off_by_one` with a trivial two-epoch run:
the first epoch's file is `checkpoint1.pt` and stores epoch index 0. -/
theorem checkpoint_epoch_off_by_one_witness :
    (0 : Nat) < 2 ∧
    ∃ chk : Checkpoint Nat Nat,
      Event.checkpointSave ("checkpoint" ++ toString (0 + 1) ++ ".pt") chk
        ∈ (train_model
            { forwardTrain := fun _ _ => [], forwardEval := fun _ _ => [],
              zero_grad := id, backward := fun o _ => o, step := fun m o => (m, o),
              criterionVal := fun _ _ => 0 }
            Criterion.bceWithLogitsLoss [] [] 4 (fun _ => []) (fun _ => []) 2 (0, 0)).trace
      ∧ chk.epoch = (0 + 1) - 1 :=
  ⟨by decide,
   checkpoint_epoch_off_by_one
     { forwardTrain := fun _ _ => [], forwardEval := fun _ _ => [],
       zero_grad := id, backward := fun o _ => o, step := fun m o => (m, o),
       criterionVal := fun _ _ => 0 }
     Criterion.bceWithLogitsLoss [] [] 4 (fun _ => []) (fun _ => []) 2 (0, 0) 0
     (by decide)⟩

/-! ### The two-stage stratified split (`train_test_split`, seed 123) -/

/-- Default row used to totalize row indexing. -/
def defaultRow : Row := { title := "", category := "" }

theorem getD_map_fn {α β : Type} (f : α → β) (l : List α) (j : Nat) (d : α) (e : β)
    (hj : j < l.length) : (l.map f).getD j e = f (l.getD j d) := by
  induction l generalizing j with
  | nil => simp at hj
  | cons a t ih =>
    cases j with
    | zero => simp
    | succ j =>
      rw [List.map_cons, List.getD_cons_succ, List.getD_cons_succ]
      exact ih j (by simpa using Nat.lt_of_succ_lt_succ hj)

theorem getD_range (len j : Nat) (hj : j < len) : (List.range len).getD j 0 = j := by
  rw [List.getD_eq_getD_get?, List.get?_range hj]
  rfl

theorem map_getD_range_self {α : Type} (d : α) (l : List α) :
    (List.range l.length).map (fun i => l.getD i d) = l := by
  induction l with
  | nil => rfl
  | cons x t ih =>
    rw [List.length_cons, List.range_succ_eq_map, List.map_cons, List.map_map]
    refine congrArg _ ?_
    have hfun : ((fun i => (x :: t).getD i d) ∘ Nat.succ) = fun i => t.getD i d := by
      funext i
      simp [Function.comp, List.getD_cons_succ]
    rw [hfun, ih]

theorem sum_map_add_nat {α : Type} (f g : α → Nat) (l : List α) :
    (l.map (fun x => f x + g x)).sum = (l.map f).sum + (l.map g).sum := by
  induction l with
  | nil => rfl
  | cons a t ih =>
    simp only [List.map_cons, List.sum_cons, ih]
    omega

theorem sum_map_div_le (l : List α) (f : α → Nat) (n : Nat) (hn : 0 < n) :
    (l.map (fun x => f x / n)).sum ≤ (l.map f).sum / n := by
  rw [Nat.le_div_iff_mul_le hn]
  induction l with
  | nil => simp
  | cons a t ih =>
    simp only [List.map_cons, List.sum_cons, Nat.add_mul]
    have ha : f a / n * n ≤ f a := Nat.div_mul_le_self _ _
    omega

theorem sum_indicator_not_mem {α : Type} [DecidableEq α] (v : α) (cs : List α)
    (hv : v ∉ cs) :
    (cs.map (fun c => if v = c then (1 : Nat) else 0)).sum = 0 := by
  induction cs with
  | nil => rfl
  | cons c t ih =>
    have h1 : v ≠ c := fun h => hv (h ▸ List.mem_cons_self c t)
    have h2 : v ∉ t := fun h => hv (List.mem_cons_of_mem c h)
    simp [h1, ih h2]

theorem sum_indicator_nodup {α : Type} [DecidableEq α] (v : α) (cs : List α)
    (hnd : cs.Nodup) (hv : v ∈ cs) :
    (cs.map (fun c => if v = c then (1 : Nat) else 0)).sum = 1 := by
  induction cs with
  | nil => simp at hv
  | cons c t ih =>
    obtain ⟨hct, hndt⟩ := List.nodup_cons.mp hnd
    rcases List.mem_cons.mp hv with rfl | hv'
    · simp [sum_indicator_not_mem v t hct]
    · have hne : v ≠ c := fun h => hct (h ▸ hv')
      simp [hne, ih hndt hv']

theorem sum_filter_lengths {α : Type} [DecidableEq α] (f : Nat → α) (s : List Nat)
    (cs : List α) (hnd : cs.Nodup) (hc : ∀ i ∈ s, f i ∈ cs) :
    (cs.map (fun c => (s.filter (fun x => decide (f x = c))).length)).sum = s.length := by
  induction s with
  | nil => simp
  | cons i s ih =>
    have hi : f i ∈ cs := hc i (List.mem_cons_self _ _)
    have hs : ∀ x ∈ s, f x ∈ cs := fun x hx => hc x (List.mem_cons_of_mem _ hx)
    have hsplit : (cs.map (fun c => (((i :: s)).filter (fun x => decide (f x = c))).length))
        = cs.map (fun c => (s.filter (fun x => decide (f x = c))).length
            + (if f i = c then 1 else 0)) := by
      refine List.map_congr_left ?_
      intro c _
      by_cases h : f i = c <;> simp [List.filter_cons, h]
    rw [hsplit, sum_map_add_nat, ih hs, sum_indicator_nodup (f i) cs hnd hi]
    simp [Nat.add_comm]

theorem filter_range_mem_perm (chosen : List Nat) (len : Nat)
    (hnd : chosen.Nodup) (hsub : ∀ x ∈ chosen, x < len) :
    List.Perm ((List.range len).filter (fun j => decide (j ∈ chosen))) chosen := by
  refine List.perm_of_nodup_nodup_toFinset_eq
    (List.Nodup.filter _ (List.nodup_range len)) hnd ?_
  ext x
  simp only [List.mem_toFinset, List.mem_filter, List.mem_range, decide_eq_true_eq]
  exact ⟨fun h => h.2, fun h => ⟨hsub x h, h⟩⟩

theorem sum_ite_mem_range (chosen : List Nat) (len : Nat)
    (hnd : chosen.Nodup) (hsub : ∀ x ∈ chosen, x < len) :
    ((List.range len).map (fun j => if j ∈ chosen then (1 : Nat) else 0)).sum
      = chosen.length := by
  have hsum : ∀ s : List Nat,
      (s.map (fun j => if j ∈ chosen then (1 : Nat) else 0)).sum
        = (s.filter (fun j => decide (j ∈ chosen))).length := by
    intro s
    induction s with
    | nil => rfl
    | cons a t ih =>
      by_cases h : a ∈ chosen <;> simp [List.filter_cons, h, ih, Nat.add_comm]
  rw [hsum, (filter_range_mem_perm chosen len hnd hsub).length_eq]

theorem sum_le_mul_count_pos (s : List Nat) (key : Nat → Nat) (B : Nat)
    (hB : ∀ j ∈ s, key j ≤ B) :
    (s.map key).sum ≤ B * (s.filter (fun j => decide (0 < key j))).length := by
  induction s with
  | nil => simp
  | cons a t ih =>
    have hat : key a ≤ B := hB a (List.mem_cons_self _ _)
    have iht := ih (fun j hj => hB j (List.mem_cons_of_mem _ hj))
    by_cases h : 0 < key a
    · simp only [List.map_cons, List.sum_cons, List.filter_cons]
      rw [if_pos (by simpa using h)]
      simp only [List.length_cons, Nat.mul_succ]
      omega
    · have hz : key a = 0 := by omega
      simp only [List.map_cons, List.sum_cons, List.filter_cons]
      rw [if_neg (by simpa using h)]
      omega

/-- Tie-break order on class positions used to distribute the remainder of
    the proportional allocation: larger fractional part first, ties by class
    position.  (The source resolves ties with the seeded RNG; no claimed
    property depends on which tied class receives the extra draw.) -/
def fracOrder (fracs : List Nat) (i j : Nat) : Prop :=
  fracs.getD j 0 < fracs.getD i 0 ∨ (fracs.getD i 0 = fracs.getD j 0 ∧ i ≤ j)

instance fracOrderDecidable (fracs : List Nat) : DecidableRel (fracOrder fracs) :=
  fun i j => by unfold fracOrder; infer_instance

instance fracOrderTotal (fracs : List Nat) : IsTotal Nat (fracOrder fracs) :=
  ⟨fun i j => by unfold fracOrder; omega⟩

instance fracOrderTrans (fracs : List Nat) : IsTrans Nat (fracOrder fracs) :=
  ⟨fun a b c hab hbc => by unfold fracOrder at *; omega⟩

/-- Floored proportional share of `target` draws for each class. -/
def amFloors (counts : List Nat) (target n : Nat) : List Nat :=
  counts.map (fun c => c * target / n)

/-- Fractional parts (scaled by `n`) of the proportional shares. -/
def amFracs (counts : List Nat) (target n : Nat) : List Nat :=
  counts.map (fun c => c * target % n)

/-- How many extra draws remain after the floored shares. -/
def amRem (counts : List Nat) (target n : Nat) : Nat :=
  target - (amFloors counts target n).sum

/-- The classes receiving one extra draw: the `amRem` with the largest
    fractional parts. -/
def amChosen (counts : List Nat) (target n : Nat) : List Nat :=
  (List.insertionSort (fracOrder (amFracs counts target n))
    (List.range counts.length)).take (amRem counts target n)

/-- `sklearn.model_selection._split._approximate_mode(class_counts, n_draws,
    rng)`: allocate `target` draws over the classes, flooring the
    proportional share `count·target/n` and granting the remaining draws to
    the classes with the largest fractional parts. -/
def approximateMode (counts : List Nat) (target n : Nat) : List Nat :=
  (List.range counts.length).map
    (fun j => (amFloors counts target n).getD j 0
      + if j ∈ amChosen counts target n then 1 else 0)

theorem getD_range_map {α : Type} (f : Nat → α) (len j : Nat) (e : α) (hj : j < len) :
    ((List.range len).map f).getD j e = f j := by
  rw [getD_map_fn f _ j 0 e (by simpa using hj), getD_range len j hj]

theorem amChosen_nodup (counts : List Nat) (target n : Nat) : (amChosen counts target n).Nodup := by
  have hs : (List.insertionSort (fracOrder (amFracs counts target n))
      (List.range counts.length)).Nodup :=
    (List.perm_insertionSort _ _).nodup_iff.mpr (List.nodup_range _)
  exact List.Nodup.sublist (List.take_sublist _ _) hs

theorem amChosen_lt (counts : List Nat) (target n : Nat) :
    ∀ x ∈ amChosen counts target n, x < counts.length := by
  intro x hx
  have hx' := List.mem_of_mem_take hx
  have := (List.perm_insertionSort (fracOrder (amFracs counts target n)) _).mem_iff.mp hx'
  simpa using this

theorem amFloors_sum_le (counts : List Nat) (target n : Nat) (hn : counts.sum = n) (hn0 : 0 < n) :
    (amFloors counts target n).sum ≤ target := by
  have h := sum_map_div_le counts (fun c => c * target) n hn0
  have h2 : ∀ l : List Nat, (l.map (fun c => c * target)).sum = l.sum * target := by
    intro l
    induction l with
    | nil => simp
    | cons a t ih => simp [ih, Nat.add_mul]
  unfold amFloors
  rw [h2 counts, hn] at h
  calc (counts.map (fun c => c * target / n)).sum ≤ n * target / n := h
  _ = target := Nat.mul_div_cancel_left target hn0

theorem amFracs_sum (counts : List Nat) (target n : Nat) (hn : counts.sum = n) (hn0 : 0 < n) :
    (amFracs counts target n).sum = n * amRem counts target n := by
  have hml : ∀ l : List Nat, (l.map (fun c => n * (c * target / n))).sum
      = n * (l.map (fun c => c * target / n)).sum := by
    intro l
    induction l with
    | nil => simp
    | cons a t ih => simp [ih, Nat.mul_add]
  have hmr : ∀ l : List Nat, (l.map (fun c => c * target)).sum = l.sum * target := by
    intro l
    induction l with
    | nil => simp
    | cons a t ih => simp [ih, Nat.add_mul]
  have hid : ∀ c : Nat, n * (c * target / n) + c * target % n = c * target :=
    fun c => Nat.div_add_mod (c * target) n
  have hsum : (counts.map (fun c => n * (c * target / n) + c * target % n)).sum
      = (counts.map (fun c => c * target)).sum :=
    congrArg _ (List.map_congr_left fun c _ => hid c)
  rw [sum_map_add_nat, hml counts, hmr counts, hn] at hsum
  have hle := amFloors_sum_le counts target n hn hn0
  have hfl : (amFloors counts target n).sum = (counts.map (fun c => c * target / n)).sum := rfl
  rw [hfl] at hle
  have hfr : (counts.map (fun c => c * target / n)).sum + amRem counts target n = target := by
    unfold amRem
    rw [hfl]
    omega
  have hdist : n * target = n * (counts.map (fun c => c * target / n)).sum
      + n * amRem counts target n := by
    rw [← Nat.mul_add, hfr]
  show (counts.map (fun c => c * target % n)).sum = n * amRem counts target n
  omega

theorem amRem_le_pos (counts : List Nat) (target n : Nat) (hn : counts.sum = n) (hn0 : 0 < n) :
    amRem counts target n
      ≤ ((List.range counts.length).filter
          (fun j => decide (0 < (amFracs counts target n).getD j 0))).length := by
  have hlenF : (amFracs counts target n).length = counts.length := by simp [amFracs]
  have hsum : ((List.range counts.length).map
      (fun j => (amFracs counts target n).getD j 0)).sum
      = (amFracs counts target n).sum := by
    rw [← hlenF, map_getD_range_self]
  have hB : ∀ j ∈ List.range counts.length,
      (amFracs counts target n).getD j 0 ≤ n - 1 := by
    intro j hj
    have hj' : j < counts.length := List.mem_range.mp hj
    unfold amFracs
    rw [getD_map_fn _ counts j 0 0 hj']
    have := Nat.mod_lt (counts.getD j 0 * target) hn0
    omega
  have hmain := sum_le_mul_count_pos (List.range counts.length)
    (fun j => (amFracs counts target n).getD j 0) (n - 1) hB
  have hmain2 : ((List.range counts.length).map
      (fun j => (amFracs counts target n).getD j 0)).sum
      ≤ (n - 1) * ((List.range counts.length).filter
          (fun j => decide (0 < (amFracs counts target n).getD j 0))).length := hmain
  rw [hsum, amFracs_sum counts target n hn hn0] at hmain2
  by_contra h
  push_neg at h
  have h2 : (n - 1) * ((List.range counts.length).filter
        (fun j => decide (0 < (amFracs counts target n).getD j 0))).length
      ≤ (n - 1) * amRem counts target n :=
    Nat.mul_le_mul_left _ (Nat.le_of_lt h)
  have h3 : (n - 1) * amRem counts target n
      = n * amRem counts target n - 1 * amRem counts target n := Nat.sub_mul n 1 _
  have h4 : amRem counts target n ≤ n * amRem counts target n :=
    Nat.le_mul_of_pos_left _ hn0
  omega

theorem amChosen_frac_pos (counts : List Nat) (target n : Nat) (hn : counts.sum = n) (hn0 : 0 < n) :
    ∀ j ∈ amChosen counts target n, 0 < (amFracs counts target n).getD j 0 := by
  intro j hj
  by_contra hz
  push_neg at hz
  have hz0 : (amFracs counts target n).getD j 0 = 0 := Nat.le_zero.mp hz
  have hsort : List.Sorted (fracOrder (amFracs counts target n))
      (List.insertionSort (fracOrder (amFracs counts target n))
        (List.range counts.length)) :=
    List.sorted_insertionSort _ _
  have hdrop0 : ∀ x ∈ (List.insertionSort (fracOrder (amFracs counts target n))
      (List.range counts.length)).drop (amRem counts target n),
      (amFracs counts target n).getD x 0 = 0 := by
    intro x hx
    have hrel := hsort.rel_of_mem_take_of_mem_drop hj hx
    unfold fracOrder at hrel
    omega
  have hpos_sub : ∀ x ∈ (List.range counts.length).filter
      (fun i => decide (0 < (amFracs counts target n).getD i 0)),
      x ∈ amChosen counts target n := by
    intro x hx
    obtain ⟨hxr, hxp⟩ := List.mem_filter.mp hx
    have hxp' : 0 < (amFracs counts target n).getD x 0 := of_decide_eq_true hxp
    have hxs : x ∈ List.insertionSort (fracOrder (amFracs counts target n))
        (List.range counts.length) :=
      (List.perm_insertionSort _ _).mem_iff.mpr hxr
    have hxs2 : x ∈ (List.insertionSort (fracOrder (amFracs counts target n))
        (List.range counts.length)).take (amRem counts target n)
        ++ (List.insertionSort (fracOrder (amFracs counts target n))
        (List.range counts.length)).drop (amRem counts target n) := by
      rw [List.take_append_drop]
      exact hxs
    rcases List.mem_append.mp hxs2 with hxa | hxb
    · exact hxa
    · exact absurd (hdrop0 x hxb) (Nat.pos_iff_ne_zero.mp hxp')
  have hjnp : j ∉ (List.range counts.length).filter
      (fun i => decide (0 < (amFracs counts target n).getD i 0)) := by
    intro hjm
    obtain ⟨_, hjp⟩ := List.mem_filter.mp hjm
    have := of_decide_eq_true hjp
    omega
  have hnodup : (j :: (List.range counts.length).filter
      (fun i => decide (0 < (amFracs counts target n).getD i 0))).Nodup :=
    List.nodup_cons.mpr ⟨hjnp, List.Nodup.filter _ (List.nodup_range _)⟩
  have hsubp : (j :: (List.range counts.length).filter
      (fun i => decide (0 < (amFracs counts target n).getD i 0)))
      ⊆ amChosen counts target n := by
    intro x hx
    rcases List.mem_cons.mp hx with rfl | hx'
    · exact hj
    · exact hpos_sub x hx'
  have hsp := List.subperm_of_subset hnodup hsubp
  have hlen := hsp.length_le
  have htl : (amChosen counts target n).length ≤ amRem counts target n := by
    unfold amChosen
    rw [List.length_take]
    omega
  have hrp := amRem_le_pos counts target n hn hn0
  simp only [List.length_cons] at hlen
  omega

theorem approximateMode_length (counts : List Nat) (target n : Nat) :
    (approximateMode counts target n).length = counts.length := by
  simp [approximateMode]

theorem approximateMode_bounds (counts : List Nat) (target n j : Nat) (hj : j < counts.length) :
    counts.getD j 0 * target / n ≤ (approximateMode counts target n).getD j 0 ∧
    (approximateMode counts target n).getD j 0 ≤ counts.getD j 0 * target / n + 1 := by
  unfold approximateMode
  rw [getD_range_map _ _ _ _ hj]
  have hfl : (amFloors counts target n).getD j 0 = counts.getD j 0 * target / n := by
    unfold amFloors
    rw [getD_map_fn _ counts j 0 0 hj]
  rw [hfl]
  by_cases hc : j ∈ amChosen counts target n <;> simp [hc]

theorem approximateMode_le_counts (counts : List Nat) (target n : Nat) (hn : counts.sum = n)
    (hn0 : 0 < n) (ht : target ≤ n) (j : Nat) (hj : j < counts.length) :
    (approximateMode counts target n).getD j 0 ≤ counts.getD j 0 := by
  unfold approximateMode
  rw [getD_range_map _ _ _ _ hj]
  have hfl : (amFloors counts target n).getD j 0 = counts.getD j 0 * target / n := by
    unfold amFloors
    rw [getD_map_fn _ counts j 0 0 hj]
  have hfloor_le : counts.getD j 0 * target / n ≤ counts.getD j 0 :=
    calc counts.getD j 0 * target / n
        ≤ counts.getD j 0 * n / n := Nat.div_le_div_right (Nat.mul_le_mul_left _ ht)
    _ = counts.getD j 0 := by rw [Nat.mul_comm, Nat.mul_div_cancel_left _ hn0]
  by_cases hc : j ∈ amChosen counts target n
  · have hpos := amChosen_frac_pos counts target n hn hn0 j hc
    have hfr : (amFracs counts target n).getD j 0 = counts.getD j 0 * target % n := by
      unfold amFracs
      rw [getD_map_fn _ counts j 0 0 hj]
    rw [hfr] at hpos
    have hc0 : 0 < counts.getD j 0 := by
      by_contra h0
      push_neg at h0
      rw [Nat.le_zero.mp h0] at hpos
      simp at hpos
    have htn : target < n := by
      rcases Nat.lt_or_ge target n with h | h
      · exact h
      · have heq : target = n := Nat.le_antisymm ht h
        rw [heq, Nat.mul_mod_left] at hpos
        exact absurd hpos (Nat.lt_irrefl 0)
    have hlt : counts.getD j 0 * target < counts.getD j 0 * n :=
      mul_lt_mul_of_pos_left htn hc0
    have hq : counts.getD j 0 * target / n < counts.getD j 0 :=
      (Nat.div_lt_iff_lt_mul hn0).mpr hlt
    rw [hfl, if_pos hc]
    omega
  · rw [hfl, if_neg hc]
    omega

theorem approximateMode_sum (counts : List Nat) (target n : Nat) (hn : counts.sum = n)
    (hn0 : 0 < n) (ht : target ≤ n) :
    (approximateMode counts target n).sum = target := by
  unfold approximateMode
  rw [sum_map_add_nat]
  have h1 : ((List.range counts.length).map
      (fun j => (amFloors counts target n).getD j 0)).sum
      = (amFloors counts target n).sum := by
    have hlen : (amFloors counts target n).length = counts.length := by simp [amFloors]
    rw [← hlen, map_getD_range_self]
  have h2 := sum_ite_mem_range (amChosen counts target n) counts.length
    (amChosen_nodup counts target n) (amChosen_lt counts target n)
  have h3 : (amChosen counts target n).length = amRem counts target n := by
    unfold amChosen
    rw [List.length_take, (List.perm_insertionSort _ _).length_eq, List.length_range]
    have hrp := amRem_le_pos counts target n hn hn0
    have hpl := List.length_filter_le
      (fun j => decide (0 < (amFracs counts target n).getD j 0)) (List.range counts.length)
    simp only [List.length_range] at hpl
    omega
  rw [h1, h2, h3]
  have hle := amFloors_sum_le counts target n hn hn0
  unfold amRem
  omega

/-- Row positions of one class in a frame (boolean indexing on the
    stratification column). -/
def classMembers (fr : List Row) (c : String) : List Nat :=
  (List.range fr.length).filter (fun i => decide ((fr.getD i defaultRow).category = c))

/-- The sorted distinct categories of a frame (`np.unique` of the
    stratification column). -/
def frameClasses (fr : List Row) : List String :=
  uniqueSorted (fr.map (fun r => r.category))

/-- Per-class sizes of a frame. -/
def classCounts (fr : List Row) : List Nat :=
  (frameClasses fr).map (fun c => (classMembers fr c).length)

/-- `n_test` of `train_test_split` for `test_size = a/b`:
    `ceil(n·a/b)` (the script's float ratios 0.2 and 0.5 are exact). -/
def ttsTestSize (a b n : Nat) : Nat := (n * a + (b - 1)) / b

/-- `n_train = n - n_test`. -/
def ttsTrainSize (a b n : Nat) : Nat := n - ttsTestSize a b n

/-- `train_test_split(fr, test_size=a/b, shuffle=True, random_state=123,
    stratify=fr[CATEGORY])`, embedded per scikit-learn's
    `StratifiedShuffleSplit`: each class contributes its `approximateMode`
    share of `n_train` row positions to the train side, drawn from the
    front of the seeded permutation `perm` of the class's positions, and
    the rest of the class to the test side. -/
def ttsTrainIdx (perm : List Nat → List Nat) (a b : Nat) (fr : List Row) : List Nat :=
  ((List.range (frameClasses fr).length).map (fun j =>
    (perm (classMembers fr ((frameClasses fr).getD j ""))).take
      ((approximateMode (classCounts fr) (ttsTrainSize a b fr.length)
        fr.length).getD j 0))).join

/-- The test side: the rest of each class. -/
def ttsTestIdx (perm : List Nat → List Nat) (a b : Nat) (fr : List Row) : List Nat :=
  ((List.range (frameClasses fr).length).map (fun j =>
    (perm (classMembers fr ((frameClasses fr).getD j ""))).drop
      ((approximateMode (classCounts fr) (ttsTrainSize a b fr.length)
        fr.length).getD j 0))).join

def train_test_split (perm : List Nat → List Nat) (a b : Nat) (fr : List Row) :
    List Nat × List Nat :=
  (ttsTrainIdx perm a b fr, ttsTestIdx perm a b fr)

theorem classMembers_nodup (fr : List Row) (c : String) :
    (classMembers fr c).Nodup :=
  List.Nodup.filter _ (List.nodup_range _)

theorem mem_classMembers {fr : List Row} {c : String} {i : Nat} :
    i ∈ classMembers fr c ↔ i < fr.length ∧ (fr.getD i defaultRow).category = c := by
  unfold classMembers
  rw [List.mem_filter, List.mem_range]
  simp

theorem frameClasses_nodup (fr : List Row) : (frameClasses fr).Nodup := by
  unfold frameClasses uniqueSorted
  exact (List.perm_insertionSort _ _).nodup_iff.mpr (List.nodup_dedup _)

theorem category_mem_frameClasses (fr : List Row) (i : Nat) (hi : i < fr.length) :
    (fr.getD i defaultRow).category ∈ frameClasses fr := by
  unfold frameClasses
  rw [mem_uniqueSorted]
  refine List.mem_map.mpr ⟨fr.getD i defaultRow, ?_, rfl⟩
  have hg : fr.getD i defaultRow = fr.get ⟨i, hi⟩ := by
    rw [List.getD_eq_getD_get?, List.get?_eq_get hi, Option.getD_some]
  rw [hg]
  exact List.mem_iff_get.mpr ⟨⟨i, hi⟩, rfl⟩

theorem classCounts_length (fr : List Row) :
    (classCounts fr).length = (frameClasses fr).length := by
  simp [classCounts]

theorem classCounts_sum (fr : List Row) : (classCounts fr).sum = fr.length := by
  have hc : ∀ i ∈ List.range fr.length,
      (fr.getD i defaultRow).category ∈ frameClasses fr := by
    intro i hi
    exact category_mem_frameClasses fr i (List.mem_range.mp hi)
  have h := sum_filter_lengths (fun i => (fr.getD i defaultRow).category)
    (List.range fr.length) (frameClasses fr) (frameClasses_nodup fr) hc
  have h' : ((frameClasses fr).map (fun c =>
      ((List.range fr.length).filter
        (fun x => decide ((fr.getD x defaultRow).category = c))).length)).sum
      = (List.range fr.length).length := h
  have h2 : (classCounts fr).sum = ((frameClasses fr).map (fun c =>
      ((List.range fr.length).filter
        (fun x => decide ((fr.getD x defaultRow).category = c))).length)).sum := rfl
  rw [h2, h', List.length_range]

theorem classCounts_getD (fr : List Row) (j : Nat)
    (hj : j < (frameClasses fr).length) :
    (classCounts fr).getD j 0
      = (classMembers fr ((frameClasses fr).getD j "")).length := by
  unfold classCounts
  rw [getD_map_fn _ _ j "" 0 hj]

theorem mem_join_map_range {α : Type} (f : Nat → List α) (len : Nat) (x : α) :
    x ∈ ((List.range len).map f).join ↔ ∃ j, j < len ∧ x ∈ f j := by
  rw [List.mem_join]
  constructor
  · rintro ⟨l, hl, hx⟩
    obtain ⟨j, hj, rfl⟩ := List.mem_map.mp hl
    exact ⟨j, List.mem_range.mp hj, hx⟩
  · rintro ⟨j, hj, hx⟩
    exact ⟨f j, List.mem_map.mpr ⟨j, List.mem_range.mpr hj, rfl⟩, hx⟩

theorem length_join_map_range {α : Type} (f : Nat → List α) (len : Nat) :
    (((List.range len).map f).join).length
      = ((List.range len).map (fun j => (f j).length)).sum := by
  rw [List.length_join, List.map_map]
  rfl

theorem nodup_getD_inj {α : Type} (l : List α) (hnd : l.Nodup) (d : α)
    {j k : Nat} (hj : j < l.length) (hk : k < l.length)
    (h : l.getD j d = l.getD k d) : j = k := by
  rw [List.getD_eq_getD_get?, List.get?_eq_get hj, Option.getD_some] at h
  rw [List.getD_eq_getD_get?, List.get?_eq_get hk, Option.getD_some] at h
  have hinj := List.nodup_iff_injective_get.mp hnd
  have h2 := hinj (show l.get ⟨j, hj⟩ = l.get ⟨k, hk⟩ from h)
  exact congrArg Fin.val h2

theorem take_drop_disjoint {α : Type} (l : List α) (hnd : l.Nodup) (k : Nat) :
    List.Disjoint (l.take k) (l.drop k) := by
  have h := hnd
  rw [← List.take_append_drop k l] at h
  exact ((List.nodup_append.mp h).2).2

theorem sum_map_sub_add (len : Nat) (f g : Nat → Nat) (h : ∀ j < len, g j ≤ f j) :
    ((List.range len).map (fun j => f j - g j)).sum
      + ((List.range len).map g).sum = ((List.range len).map f).sum := by
  induction len with
  | zero => simp
  | succ k ih =>
    rw [List.range_succ, List.map_append, List.map_append, List.map_append]
    simp only [List.map_cons, List.map_nil, List.sum_append, List.sum_cons, List.sum_nil]
    have hk := h k (Nat.lt_succ_self k)
    have ihh := ih (fun j hj => h j (Nat.lt_succ_of_lt hj))
    omega

theorem sum_single_range (len j v : Nat) (hj : j < len)
    (g : Nat → Nat) (hg : g j = v) (hz : ∀ k < len, k ≠ j → g k = 0) :
    ((List.range len).map g).sum = v := by
  induction len with
  | zero => omega
  | succ k ih =>
    rw [List.range_succ, List.map_append, List.sum_append]
    simp only [List.map_cons, List.map_nil, List.sum_cons, List.sum_nil]
    rcases Nat.lt_or_ge j k with h | h
    · have ih2 := ih h (fun m hm hmj => hz m (Nat.lt_succ_of_lt hm) hmj)
      rw [ih2, hz k (Nat.lt_succ_self k) (by omega)]
      omega
    · have hjk : j = k := by omega
      subst hjk
      have hzero : ((List.range j).map g).sum = 0 := by
        apply List.sum_eq_zero
        intro x hx
        obtain ⟨m, hm, rfl⟩ := List.mem_map.mp hx
        exact hz m (Nat.lt_succ_of_lt (List.mem_range.mp hm)) (by
          have := List.mem_range.mp hm
          omega)
      rw [hzero, hg]
      omega

theorem join_append_eq {α : Type} (L1 L2 : List (List α)) :
    (L1 ++ L2).join = L1.join ++ L2.join := by
  induction L1 with
  | nil => simp
  | cons a t ih => simp [ih]

theorem filter_join_map_range {α : Type} (p : α → Bool) (f : Nat → List α)
    (len : Nat) :
    ((((List.range len).map f).join).filter p)
      = ((List.range len).map (fun j => (f j).filter p)).join := by
  induction len with
  | zero => rfl
  | succ k ih =>
    rw [List.range_succ]
    simp only [List.map_append, List.map_cons, List.map_nil]
    rw [join_append_eq, join_append_eq, List.filter_append, ih]
    simp

theorem tts_take_length (perm : List Nat → List Nat)
    (hperm : ∀ l, List.Perm (perm l) l) (a b : Nat) (fr : List Row)
    (hfr : fr ≠ []) (j : Nat) (hj : j < (frameClasses fr).length) :
    ((perm (classMembers fr ((frameClasses fr).getD j ""))).take
      ((approximateMode (classCounts fr) (ttsTrainSize a b fr.length)
        fr.length).getD j 0)).length
    = (approximateMode (classCounts fr) (ttsTrainSize a b fr.length)
        fr.length).getD j 0 := by
  have hn0 : 0 < fr.length := List.length_pos.mpr hfr
  rw [List.length_take, (hperm _).length_eq, ← classCounts_getD fr j hj]
  have hle := approximateMode_le_counts (classCounts fr) (ttsTrainSize a b fr.length)
    fr.length (classCounts_sum fr) hn0 (Nat.sub_le _ _) j
    (by rw [classCounts_length]; exact hj)
  omega

theorem tts_drop_length (perm : List Nat → List Nat)
    (hperm : ∀ l, List.Perm (perm l) l) (a b : Nat) (fr : List Row)
    (j : Nat) (hj : j < (frameClasses fr).length) :
    ((perm (classMembers fr ((frameClasses fr).getD j ""))).drop
      ((approximateMode (classCounts fr) (ttsTrainSize a b fr.length)
        fr.length).getD j 0)).length
    = (classCounts fr).getD j 0
      - (approximateMode (classCounts fr) (ttsTrainSize a b fr.length)
          fr.length).getD j 0 := by
  rw [List.length_drop, (hperm _).length_eq, ← classCounts_getD fr j hj]

theorem ttsTrainIdx_length (perm : List Nat → List Nat)
    (hperm : ∀ l, List.Perm (perm l) l) (a b : Nat) (fr : List Row)
    (hfr : fr ≠ []) :
    (ttsTrainIdx perm a b fr).length = ttsTrainSize a b fr.length := by
  have hn0 : 0 < fr.length := List.length_pos.mpr hfr
  unfold ttsTrainIdx
  rw [length_join_map_range]
  have hcong : ∀ j ∈ List.range (frameClasses fr).length,
      ((perm (classMembers fr ((frameClasses fr).getD j ""))).take
        ((approximateMode (classCounts fr) (ttsTrainSize a b fr.length)
          fr.length).getD j 0)).length
      = (approximateMode (classCounts fr) (ttsTrainSize a b fr.length)
          fr.length).getD j 0 := by
    intro j hjr
    exact tts_take_length perm hperm a b fr hfr j (List.mem_range.mp hjr)
  rw [List.map_congr_left hcong]
  have hlen2 : (approximateMode (classCounts fr) (ttsTrainSize a b fr.length)
      fr.length).length = (frameClasses fr).length := by
    rw [approximateMode_length, classCounts_length]
  rw [← hlen2, map_getD_range_self]
  exact approximateMode_sum (classCounts fr) _ fr.length (classCounts_sum fr)
    hn0 (Nat.sub_le _ _)

theorem ttsTestIdx_length (perm : List Nat → List Nat)
    (hperm : ∀ l, List.Perm (perm l) l) (a b : Nat) (fr : List Row)
    (hfr : fr ≠ []) (hts : ttsTestSize a b fr.length ≤ fr.length) :
    (ttsTestIdx perm a b fr).length = ttsTestSize a b fr.length := by
  have hn0 : 0 < fr.length := List.length_pos.mpr hfr
  unfold ttsTestIdx
  rw [length_join_map_range]
  have hcong : ∀ j ∈ List.range (frameClasses fr).length,
      ((perm (classMembers fr ((frameClasses fr).getD j ""))).drop
        ((approximateMode (classCounts fr) (ttsTrainSize a b fr.length)
          fr.length).getD j 0)).length
      = (classCounts fr).getD j 0
        - (approximateMode (classCounts fr) (ttsTrainSize a b fr.length)
            fr.length).getD j 0 := by
    intro j hjr
    exact tts_drop_length perm hperm a b fr j (List.mem_range.mp hjr)
  rw [List.map_congr_left hcong]
  have hsub := sum_map_sub_add (frameClasses fr).length
    (fun j => (classCounts fr).getD j 0)
    (fun j => (approximateMode (classCounts fr) (ttsTrainSize a b fr.length)
      fr.length).getD j 0)
    (fun j hj => approximateMode_le_counts (classCounts fr) _ fr.length
      (classCounts_sum fr) hn0 (Nat.sub_le _ _) j
      (by rw [classCounts_length]; exact hj))
  have hf : ((List.range (frameClasses fr).length).map
      (fun j => (classCounts fr).getD j 0)).sum = fr.length := by
    rw [← classCounts_length, map_getD_range_self, classCounts_sum]
  have hg : ((List.range (frameClasses fr).length).map
      (fun j => (approximateMode (classCounts fr) (ttsTrainSize a b fr.length)
        fr.length).getD j 0)).sum = ttsTrainSize a b fr.length := by
    have hlen2 : (approximateMode (classCounts fr) (ttsTrainSize a b fr.length)
        fr.length).length = (frameClasses fr).length := by
      rw [approximateMode_length, classCounts_length]
    rw [← hlen2, map_getD_range_self]
    exact approximateMode_sum (classCounts fr) _ fr.length (classCounts_sum fr)
      hn0 (Nat.sub_le _ _)
  have hsub2 : ((List.range (frameClasses fr).length).map
      (fun j => (classCounts fr).getD j 0
        - (approximateMode (classCounts fr) (ttsTrainSize a b fr.length)
            fr.length).getD j 0)).sum
      + ((List.range (frameClasses fr).length).map
        (fun j => (approximateMode (classCounts fr) (ttsTrainSize a b fr.length)
          fr.length).getD j 0)).sum
      = ((List.range (frameClasses fr).length).map
        (fun j => (classCounts fr).getD j 0)).sum := hsub
  rw [hf, hg] at hsub2
  have hdef : ttsTrainSize a b fr.length
      = fr.length - ttsTestSize a b fr.length := rfl
  omega

theorem block_mem_facts (perm : List Nat → List Nat)
    (hperm : ∀ l, List.Perm (perm l) l) (fr : List Row) (c : String) {i : Nat}
    (h : i ∈ perm (classMembers fr c)) :
    i < fr.length ∧ (fr.getD i defaultRow).category = c :=
  mem_classMembers.mp ((hperm _).mem_iff.mp h)

theorem mem_ttsTrainIdx (perm : List Nat → List Nat) (a b : Nat) (fr : List Row)
    {i : Nat} (h : i ∈ ttsTrainIdx perm a b fr) :
    ∃ j, j < (frameClasses fr).length ∧
      i ∈ (perm (classMembers fr ((frameClasses fr).getD j ""))).take
        ((approximateMode (classCounts fr) (ttsTrainSize a b fr.length)
          fr.length).getD j 0) := by
  unfold ttsTrainIdx at h
  exact (mem_join_map_range _ _ _).mp h

theorem mem_ttsTestIdx (perm : List Nat → List Nat) (a b : Nat) (fr : List Row)
    {i : Nat} (h : i ∈ ttsTestIdx perm a b fr) :
    ∃ j, j < (frameClasses fr).length ∧
      i ∈ (perm (classMembers fr ((frameClasses fr).getD j ""))).drop
        ((approximateMode (classCounts fr) (ttsTrainSize a b fr.length)
          fr.length).getD j 0) := by
  unfold ttsTestIdx at h
  exact (mem_join_map_range _ _ _).mp h

theorem ttsTrainIdx_lt (perm : List Nat → List Nat)
    (hperm : ∀ l, List.Perm (perm l) l) (a b : Nat) (fr : List Row) :
    ∀ i ∈ ttsTrainIdx perm a b fr, i < fr.length := by
  intro i h
  obtain ⟨j, hj, hji⟩ := mem_ttsTrainIdx perm a b fr h
  exact (block_mem_facts perm hperm fr _ (List.mem_of_mem_take hji)).1

theorem ttsTestIdx_lt (perm : List Nat → List Nat)
    (hperm : ∀ l, List.Perm (perm l) l) (a b : Nat) (fr : List Row) :
    ∀ i ∈ ttsTestIdx perm a b fr, i < fr.length := by
  intro i h
  obtain ⟨j, hj, hji⟩ := mem_ttsTestIdx perm a b fr h
  exact (block_mem_facts perm hperm fr _ (List.mem_of_mem_drop hji)).1

theorem tts_disjoint (perm : List Nat → List Nat)
    (hperm : ∀ l, List.Perm (perm l) l) (a b : Nat) (fr : List Row) :
    List.Disjoint (ttsTrainIdx perm a b fr) (ttsTestIdx perm a b fr) := by
  intro i h1 h2
  obtain ⟨j, hj, hji⟩ := mem_ttsTrainIdx perm a b fr h1
  obtain ⟨k, hk, hki⟩ := mem_ttsTestIdx perm a b fr h2
  have hcj := block_mem_facts perm hperm fr _ (List.mem_of_mem_take hji)
  have hck := block_mem_facts perm hperm fr _ (List.mem_of_mem_drop hki)
  have hjk : j = k := nodup_getD_inj (frameClasses fr) (frameClasses_nodup fr) ""
    hj hk (hcj.2.symm.trans hck.2)
  subst hjk
  exact take_drop_disjoint _ ((hperm _).nodup_iff.mpr (classMembers_nodup fr _)) _ hji hki

theorem tts_blocks_nodup {α : Type} (perm : List Nat → List Nat)
    (hperm : ∀ l, List.Perm (perm l) l) (fr : List Row) (f : Nat → List Nat)
    (hsub : ∀ j, ∀ i ∈ f j, i ∈ perm (classMembers fr ((frameClasses fr).getD j "")))
    (hnd : ∀ j, (f j).Nodup) :
    (((List.range (frameClasses fr).length).map f).join).Nodup := by
  rw [List.nodup_join]
  constructor
  · intro l hl
    obtain ⟨j, _, rfl⟩ := List.mem_map.mp hl
    exact hnd j
  · rw [List.pairwise_map]
    have hpr : List.Pairwise (fun j k => j < k)
        (List.range (frameClasses fr).length) := List.pairwise_lt_range _
    refine hpr.imp_of_mem ?_
    intro j k hjm hkm hjk
    intro i hij hik
    have hj := List.mem_range.mp hjm
    have hk := List.mem_range.mp hkm
    have hcj := block_mem_facts perm hperm fr _ (hsub j i hij)
    have hck := block_mem_facts perm hperm fr _ (hsub k i hik)
    have := nodup_getD_inj (frameClasses fr) (frameClasses_nodup fr) "" hj hk
      (hcj.2.symm.trans hck.2)
    omega

theorem ttsTrainIdx_nodup (perm : List Nat → List Nat)
    (hperm : ∀ l, List.Perm (perm l) l) (a b : Nat) (fr : List Row) :
    (ttsTrainIdx perm a b fr).Nodup := by
  unfold ttsTrainIdx
  refine tts_blocks_nodup (α := Nat) perm hperm fr _ ?_ ?_
  · intro j i hi
    exact List.mem_of_mem_take hi
  · intro j
    exact List.Nodup.sublist (List.take_sublist _ _)
      ((hperm _).nodup_iff.mpr (classMembers_nodup fr _))

theorem ttsTestIdx_nodup (perm : List Nat → List Nat)
    (hperm : ∀ l, List.Perm (perm l) l) (a b : Nat) (fr : List Row) :
    (ttsTestIdx perm a b fr).Nodup := by
  unfold ttsTestIdx
  refine tts_blocks_nodup (α := Nat) perm hperm fr _ ?_ ?_
  · intro j i hi
    exact List.mem_of_mem_drop hi
  · intro j
    exact List.Nodup.sublist (List.drop_sublist _ _)
      ((hperm _).nodup_iff.mpr (classMembers_nodup fr _))

theorem ttsTrainIdx_class_count (perm : List Nat → List Nat)
    (hperm : ∀ l, List.Perm (perm l) l) (a b : Nat) (fr : List Row)
    (hfr : fr ≠ []) (j : Nat) (hj : j < (frameClasses fr).length) :
    ((ttsTrainIdx perm a b fr).filter
      (fun i => decide ((fr.getD i defaultRow).category
        = (frameClasses fr).getD j ""))).length
    = (approximateMode (classCounts fr) (ttsTrainSize a b fr.length)
        fr.length).getD j 0 := by
  unfold ttsTrainIdx
  rw [filter_join_map_range, length_join_map_range]
  refine sum_single_range _ j _ hj _ ?_ ?_
  · have hself : (((perm (classMembers fr ((frameClasses fr).getD j ""))).take
        ((approximateMode (classCounts fr) (ttsTrainSize a b fr.length)
          fr.length).getD j 0)).filter
        (fun i => decide ((fr.getD i defaultRow).category
          = (frameClasses fr).getD j "")))
        = (perm (classMembers fr ((frameClasses fr).getD j ""))).take
            ((approximateMode (classCounts fr) (ttsTrainSize a b fr.length)
              fr.length).getD j 0) := by
      apply List.filter_eq_self.mpr
      intro i hi
      have hc := block_mem_facts perm hperm fr _ (List.mem_of_mem_take hi)
      exact decide_eq_true hc.2
    rw [hself]
    exact tts_take_length perm hperm a b fr hfr j hj
  · intro k hk hkj
    have hnil : (((perm (classMembers fr ((frameClasses fr).getD k ""))).take
        ((approximateMode (classCounts fr) (ttsTrainSize a b fr.length)
          fr.length).getD k 0)).filter
        (fun i => decide ((fr.getD i defaultRow).category
          = (frameClasses fr).getD j "")))
        = [] := by
      apply List.filter_eq_nil.mpr
      intro i hi
      have hc := block_mem_facts perm hperm fr _ (List.mem_of_mem_take hi)
      intro hdec
      have heq : (fr.getD i defaultRow).category = (frameClasses fr).getD j "" :=
        of_decide_eq_true hdec
      exact hkj (nodup_getD_inj (frameClasses fr) (frameClasses_nodup fr) "" hk hj
        (hc.2.symm.trans heq))
    rw [hnil]
    rfl

theorem ttsTestIdx_class_count (perm : List Nat → List Nat)
    (hperm : ∀ l, List.Perm (perm l) l) (a b : Nat) (fr : List Row)
    (hfr : fr ≠ []) (j : Nat) (hj : j < (frameClasses fr).length) :
    ((ttsTestIdx perm a b fr).filter
      (fun i => decide ((fr.getD i defaultRow).category
        = (frameClasses fr).getD j ""))).length
    = (classCounts fr).getD j 0
      - (approximateMode (classCounts fr) (ttsTrainSize a b fr.length)
          fr.length).getD j 0 := by
  unfold ttsTestIdx
  rw [filter_join_map_range, length_join_map_range]
  refine sum_single_range _ j _ hj _ ?_ ?_
  · have hself : (((perm (classMembers fr ((frameClasses fr).getD j ""))).drop
        ((approximateMode (classCounts fr) (ttsTrainSize a b fr.length)
          fr.length).getD j 0)).filter
        (fun i => decide ((fr.getD i defaultRow).category
          = (frameClasses fr).getD j "")))
        = (perm (classMembers fr ((frameClasses fr).getD j ""))).drop
            ((approximateMode (classCounts fr) (ttsTrainSize a b fr.length)
              fr.length).getD j 0) := by
      apply List.filter_eq_self.mpr
      intro i hi
      have hc := block_mem_facts perm hperm fr _ (List.mem_of_mem_drop hi)
      exact decide_eq_true hc.2
    rw [hself]
    exact tts_drop_length perm hperm a b fr j hj
  · intro k hk hkj
    have hnil : (((perm (classMembers fr ((frameClasses fr).getD k ""))).drop
        ((approximateMode (classCounts fr) (ttsTrainSize a b fr.length)
          fr.length).getD k 0)).filter
        (fun i => decide ((fr.getD i defaultRow).category
          = (frameClasses fr).getD j "")))
        = [] := by
      apply List.filter_eq_nil.mpr
      intro i hi
      have hc := block_mem_facts perm hperm fr _ (List.mem_of_mem_drop hi)
      intro hdec
      have heq : (fr.getD i defaultRow).category = (frameClasses fr).getD j "" :=
        of_decide_eq_true hdec
      exact hkj (nodup_getD_inj (frameClasses fr) (frameClasses_nodup fr) "" hk hj
        (hc.2.symm.trans heq))
    rw [hnil]
    rfl

/-- `reset_index(drop=True)`: relabel a frame's rows with a dense 0-based
    index, keeping the row data. -/
def resetIndex (fr : List (Nat × Row)) : List (Nat × Row) :=
  (List.range fr.length).zip (fr.map (fun p => p.2))

/-- The held-out 20% (`valid_test`) as a row frame. -/
def validTestFrame (perm1 : List Nat → List Nat) (df : List Row) : List Row :=
  (ttsTestIdx perm1 1 5 df).map (fun i => df.getD i defaultRow)

/-- The three partitions produced by lines 174-179 of the script: their row
    positions in the filtered table and their relabeled frames. -/
structure SplitOutput where
  trainIdx : List Nat
  validIdx : List Nat
  testIdx : List Nat
  trainFrame : List (Nat × Row)
  validFrame : List (Nat × Row)
  testFrame : List (Nat × Row)

/-- The split pipeline of `__main__`: the 80/20 stratified split with seed
    123, the 50/50 stratified split of the held-out 20% with the same seed,
    and the three `reset_index(drop=True)` calls.  `perm1`/`perm2` are the
    seeded class-wise shuffles of the two stages. -/
def splitPipeline (perm1 perm2 : List Nat → List Nat) (df : List Row) :
    SplitOutput :=
  let s1 := train_test_split perm1 1 5 df
  let valid_test := s1.2.map (fun i => df.getD i defaultRow)
  let s2 := train_test_split perm2 1 2 valid_test
  { trainIdx := s1.1,
    validIdx := s2.1.map (fun p => s1.2.getD p 0),
    testIdx := s2.2.map (fun p => s1.2.getD p 0),
    trainFrame := resetIndex (s1.1.zip (s1.1.map (fun i => df.getD i defaultRow))),
    validFrame := resetIndex ((s2.1.map (fun p => s1.2.getD p 0)).zip
      (s2.1.map (fun p => valid_test.getD p defaultRow))),
    testFrame := resetIndex ((s2.2.map (fun p => s1.2.getD p 0)).zip
      (s2.2.map (fun p => valid_test.getD p defaultRow))) }

theorem resetIndex_fst (fr : List (Nat × Row)) :
    (resetIndex fr).map (fun p => p.1) = List.range fr.length := by
  unfold resetIndex
  rw [List.map_fst_zip]
  rw [List.length_range, List.length_map]

theorem resetIndex_snd (fr : List (Nat × Row)) :
    (resetIndex fr).map (fun p => p.2) = fr.map (fun p => p.2) := by
  unfold resetIndex
  rw [List.map_snd_zip]
  rw [List.length_range, List.length_map]

theorem resetIndex_length (fr : List (Nat × Row)) :
    (resetIndex fr).length = fr.length := by
  unfold resetIndex
  rw [List.length_zip, List.length_range, List.length_map, Nat.min_self]

theorem getD_mem_list {α : Type} (l : List α) (p : Nat) (d : α)
    (hp : p < l.length) : l.getD p d ∈ l := by
  rw [List.getD_eq_getD_get?, List.get?_eq_get hp, Option.getD_some]
  exact List.mem_iff_get.mpr ⟨⟨p, hp⟩, rfl⟩

theorem mapped_filter_count (f : Nat → Nat) (positions : List Nat)
    (p : Nat → Bool) :
    ((positions.map f).filter p).length
      = (positions.filter (fun q => p (f q))).length := by
  rw [← List.countP_eq_length_filter, ← List.countP_eq_length_filter,
    List.countP_map]
  rfl

theorem validTestFrame_getD (perm1 : List Nat → List Nat) (df : List Row)
    (p : Nat) (hp : p < (validTestFrame perm1 df).length) :
    (validTestFrame perm1 df).getD p defaultRow
      = df.getD ((ttsTestIdx perm1 1 5 df).getD p 0) defaultRow := by
  unfold validTestFrame at *
  rw [List.length_map] at hp
  rw [getD_map_fn _ _ p 0 defaultRow hp]

theorem validTestFrame_length (perm1 : List Nat → List Nat) (df : List Row) :
    (validTestFrame perm1 df).length = (ttsTestIdx perm1 1 5 df).length := by
  unfold validTestFrame
  rw [List.length_map]

set_option maxHeartbeats 8000000

/-- C2. For every filtered table and seeded class-wise shuffles, the
two-stage split produces pairwise disjoint train/valid/test partitions;
their sizes are in proportion 8:1:1 within ±1 example per partition
(integer rounding); each split stage is stratified on the category column
(in the train partition, and in the valid and test partitions relative to
the held-out 20%, every class's count is the floor or the ceiling of its
proportional share); and each partition frame is re-indexed to a dense
0-based range over its own rows. -/
theorem splitPipeline_spec (perm1 perm2 : List Nat → List Nat)
    (hperm1 : ∀ l, List.Perm (perm1 l) l) (hperm2 : ∀ l, List.Perm (perm2 l) l)
    (df : List Row) (hdf : df ≠ []) :
    (List.Disjoint (splitPipeline perm1 perm2 df).trainIdx
        (splitPipeline perm1 perm2 df).validIdx
      ∧ List.Disjoint (splitPipeline perm1 perm2 df).trainIdx
        (splitPipeline perm1 perm2 df).testIdx
      ∧ List.Disjoint (splitPipeline perm1 perm2 df).validIdx
        (splitPipeline perm1 perm2 df).testIdx)
    ∧ (8 * df.length ≤ 10 * (splitPipeline perm1 perm2 df).trainIdx.length + 10
      ∧ 10 * (splitPipeline perm1 perm2 df).trainIdx.length ≤ 8 * df.length + 10
      ∧ df.length ≤ 10 * (splitPipeline perm1 perm2 df).validIdx.length + 10
      ∧ 10 * (splitPipeline perm1 perm2 df).validIdx.length ≤ df.length + 10
      ∧ df.length ≤ 10 * (splitPipeline perm1 perm2 df).testIdx.length + 10
      ∧ 10 * (splitPipeline perm1 perm2 df).testIdx.length ≤ df.length + 10)
    ∧ ((∀ j, j < (frameClasses df).length →
        (classCounts df).getD j 0 * ttsTrainSize 1 5 df.length / df.length
          ≤ ((splitPipeline perm1 perm2 df).trainIdx.filter
              (fun i => decide ((df.getD i defaultRow).category
                = (frameClasses df).getD j ""))).length
        ∧ ((splitPipeline perm1 perm2 df).trainIdx.filter
              (fun i => decide ((df.getD i defaultRow).category
                = (frameClasses df).getD j ""))).length
          ≤ (classCounts df).getD j 0 * ttsTrainSize 1 5 df.length / df.length + 1)
      ∧ (∀ j, j < (frameClasses (validTestFrame perm1 df)).length →
        (classCounts (validTestFrame perm1 df)).getD j 0
            * ttsTrainSize 1 2 (validTestFrame perm1 df).length
            / (validTestFrame perm1 df).length
          ≤ ((splitPipeline perm1 perm2 df).validIdx.filter
              (fun i => decide ((df.getD i defaultRow).category
                = (frameClasses (validTestFrame perm1 df)).getD j ""))).length
        ∧ ((splitPipeline perm1 perm2 df).validIdx.filter
              (fun i => decide ((df.getD i defaultRow).category
                = (frameClasses (validTestFrame perm1 df)).getD j ""))).length
          ≤ (classCounts (validTestFrame perm1 df)).getD j 0
            * ttsTrainSize 1 2 (validTestFrame perm1 df).length
            / (validTestFrame perm1 df).length + 1)
      ∧ (∀ j, j < (frameClasses (validTestFrame perm1 df)).length →
        (classCounts (validTestFrame perm1 df)).getD j 0
            - ((classCounts (validTestFrame perm1 df)).getD j 0
              * ttsTrainSize 1 2 (validTestFrame perm1 df).length
              / (validTestFrame perm1 df).length + 1)
          ≤ ((splitPipeline perm1 perm2 df).testIdx.filter
              (fun i => decide ((df.getD i defaultRow).category
                = (frameClasses (validTestFrame perm1 df)).getD j ""))).length
        ∧ ((splitPipeline perm1 perm2 df).testIdx.filter
              (fun i => decide ((df.getD i defaultRow).category
                = (frameClasses (validTestFrame perm1 df)).getD j ""))).length
          ≤ (classCounts (validTestFrame perm1 df)).getD j 0
            - (classCounts (validTestFrame perm1 df)).getD j 0
              * ttsTrainSize 1 2 (validTestFrame perm1 df).length
              / (validTestFrame perm1 df).length))
    ∧ ((splitPipeline perm1 perm2 df).trainFrame.map (fun p => p.1)
        = List.range (splitPipeline perm1 perm2 df).trainFrame.length
      ∧ (splitPipeline perm1 perm2 df).validFrame.map (fun p => p.1)
        = List.range (splitPipeline perm1 perm2 df).validFrame.length
      ∧ (splitPipeline perm1 perm2 df).testFrame.map (fun p => p.1)
        = List.range (splitPipeline perm1 perm2 df).testFrame.length
      ∧ (splitPipeline perm1 perm2 df).trainFrame.map (fun p => p.2)
        = (splitPipeline perm1 perm2 df).trainIdx.map
            (fun i => df.getD i defaultRow)
      ∧ (splitPipeline perm1 perm2 df).validFrame.map (fun p => p.2)
        = (splitPipeline perm1 perm2 df).validIdx.map
            (fun i => df.getD i defaultRow)
      ∧ (splitPipeline perm1 perm2 df).testFrame.map (fun p => p.2)
        = (splitPipeline perm1 perm2 df).testIdx.map
            (fun i => df.getD i defaultRow)) := by
  have hn0 : 0 < df.length := List.length_pos.mpr hdf
  have hts1 : ttsTestSize 1 5 df.length ≤ df.length := by
    unfold ttsTestSize
    omega
  have hs1len : (ttsTestIdx perm1 1 5 df).length = ttsTestSize 1 5 df.length :=
    ttsTestIdx_length perm1 hperm1 1 5 df hdf hts1
  have hvtlen : (validTestFrame perm1 df).length = ttsTestSize 1 5 df.length := by
    rw [validTestFrame_length, hs1len]
  have hT1pos : 0 < ttsTestSize 1 5 df.length := by
    unfold ttsTestSize
    omega
  have hvtne : validTestFrame perm1 df ≠ [] := by
    intro h
    have := congrArg List.length h
    rw [hvtlen] at this
    simp at this
    omega
  have hvt0 : 0 < (validTestFrame perm1 df).length := by omega
  have hts2 : ttsTestSize 1 2 (validTestFrame perm1 df).length
      ≤ (validTestFrame perm1 df).length := by
    unfold ttsTestSize
    omega
  have hpt : (splitPipeline perm1 perm2 df).trainIdx = ttsTrainIdx perm1 1 5 df := rfl
  have hpv : (splitPipeline perm1 perm2 df).validIdx
      = (ttsTrainIdx perm2 1 2 (validTestFrame perm1 df)).map
          (fun p => (ttsTestIdx perm1 1 5 df).getD p 0) := rfl
  have hpte : (splitPipeline perm1 perm2 df).testIdx
      = (ttsTestIdx perm2 1 2 (validTestFrame perm1 df)).map
          (fun p => (ttsTestIdx perm1 1 5 df).getD p 0) := rfl
  have hvpos : ∀ p ∈ ttsTrainIdx perm2 1 2 (validTestFrame perm1 df),
      p < (ttsTestIdx perm1 1 5 df).length := by
    intro p hp
    have := ttsTrainIdx_lt perm2 hperm2 1 2 (validTestFrame perm1 df) p hp
    rw [validTestFrame_length] at this
    exact this
  have htpos : ∀ p ∈ ttsTestIdx perm2 1 2 (validTestFrame perm1 df),
      p < (ttsTestIdx perm1 1 5 df).length := by
    intro p hp
    have := ttsTestIdx_lt perm2 hperm2 1 2 (validTestFrame perm1 df) p hp
    rw [validTestFrame_length] at this
    exact this
  have hftr : (splitPipeline perm1 perm2 df).trainFrame
      = resetIndex ((ttsTrainIdx perm1 1 5 df).zip
          ((ttsTrainIdx perm1 1 5 df).map (fun i => df.getD i defaultRow))) := rfl
  have hfva : (splitPipeline perm1 perm2 df).validFrame
      = resetIndex (((ttsTrainIdx perm2 1 2 (validTestFrame perm1 df)).map
          (fun p => (ttsTestIdx perm1 1 5 df).getD p 0)).zip
          ((ttsTrainIdx perm2 1 2 (validTestFrame perm1 df)).map
            (fun p => (validTestFrame perm1 df).getD p defaultRow))) := rfl
  have hfte : (splitPipeline perm1 perm2 df).testFrame
      = resetIndex (((ttsTestIdx perm2 1 2 (validTestFrame perm1 df)).map
          (fun p => (ttsTestIdx perm1 1 5 df).getD p 0)).zip
          ((ttsTestIdx perm2 1 2 (validTestFrame perm1 df)).map
            (fun p => (validTestFrame perm1 df).getD p defaultRow))) := rfl
  have hvsub : ∀ x ∈ (splitPipeline perm1 perm2 df).validIdx,
      x ∈ ttsTestIdx perm1 1 5 df := by
    intro x hx
    rw [hpv] at hx
    obtain ⟨p, hp, rfl⟩ := List.mem_map.mp hx
    exact getD_mem_list _ p 0 (hvpos p hp)
  have htsub : ∀ x ∈ (splitPipeline perm1 perm2 df).testIdx,
      x ∈ ttsTestIdx perm1 1 5 df := by
    intro x hx
    rw [hpte] at hx
    obtain ⟨p, hp, rfl⟩ := List.mem_map.mp hx
    exact getD_mem_list _ p 0 (htpos p hp)
  refine ⟨⟨?_, ?_, ?_⟩, ?_, ⟨?_, ?_, ?_⟩, ?_, ?_, ?_, ?_, ?_, ?_⟩
  · -- train / valid disjoint
    intro i h1 h2
    rw [hpt] at h1
    exact tts_disjoint perm1 hperm1 1 5 df h1 (hvsub i h2)
  · -- train / test disjoint
    intro i h1 h2
    rw [hpt] at h1
    exact tts_disjoint perm1 hperm1 1 5 df h1 (htsub i h2)
  · -- valid / test disjoint
    intro i h1 h2
    rw [hpv] at h1
    rw [hpte] at h2
    obtain ⟨p, hp, hpi⟩ := List.mem_map.mp h1
    obtain ⟨q, hq, hqi⟩ := List.mem_map.mp h2
    have hpq : p = q := by
      refine nodup_getD_inj (ttsTestIdx perm1 1 5 df)
        (ttsTestIdx_nodup perm1 hperm1 1 5 df) 0 (hvpos p hp) (htpos q hq) ?_
      rw [hpi, hqi]
    subst hpq
    exact tts_disjoint perm2 hperm2 1 2 (validTestFrame perm1 df) hp hq
  · -- sizes
    have e1 : (splitPipeline perm1 perm2 df).trainIdx.length
        = ttsTrainSize 1 5 df.length := by
      rw [hpt]
      exact ttsTrainIdx_length perm1 hperm1 1 5 df hdf
    have e2 : (splitPipeline perm1 perm2 df).validIdx.length
        = ttsTrainSize 1 2 (validTestFrame perm1 df).length := by
      rw [hpv, List.length_map]
      exact ttsTrainIdx_length perm2 hperm2 1 2 (validTestFrame perm1 df) hvtne
    have e3 : (splitPipeline perm1 perm2 df).testIdx.length
        = ttsTestSize 1 2 (validTestFrame perm1 df).length := by
      rw [hpte, List.length_map]
      exact ttsTestIdx_length perm2 hperm2 1 2 (validTestFrame perm1 df) hvtne hts2
    have u1 : ttsTrainSize 1 5 df.length
        = df.length - (df.length * 1 + (5 - 1)) / 5 := rfl
    have u2 : ttsTestSize 1 5 df.length = (df.length * 1 + (5 - 1)) / 5 := rfl
    have u3 : ttsTrainSize 1 2 (validTestFrame perm1 df).length
        = (validTestFrame perm1 df).length
          - ((validTestFrame perm1 df).length * 1 + (2 - 1)) / 2 := rfl
    have u4 : ttsTestSize 1 2 (validTestFrame perm1 df).length
        = ((validTestFrame perm1 df).length * 1 + (2 - 1)) / 2 := rfl
    rw [u1] at e1
    rw [u3] at e2
    rw [u4] at e3
    rw [u2] at hvtlen
    refine ⟨?_, ?_, ?_, ?_, ?_, ?_⟩ <;> omega
  · -- stage-1 stratification
    intro j hj
    have hcount := ttsTrainIdx_class_count perm1 hperm1 1 5 df hdf j hj
    have hb := approximateMode_bounds (classCounts df) (ttsTrainSize 1 5 df.length)
      df.length j (by rw [classCounts_length]; exact hj)
    rw [hpt, hcount]
    exact hb
  · -- stage-2 stratification, valid side
    intro j hj
    have hcount := ttsTrainIdx_class_count perm2 hperm2 1 2
      (validTestFrame perm1 df) hvtne j hj
    have hb := approximateMode_bounds (classCounts (validTestFrame perm1 df))
      (ttsTrainSize 1 2 (validTestFrame perm1 df).length)
      (validTestFrame perm1 df).length j (by rw [classCounts_length]; exact hj)
    have htransfer : ((splitPipeline perm1 perm2 df).validIdx.filter
        (fun i => decide ((df.getD i defaultRow).category
          = (frameClasses (validTestFrame perm1 df)).getD j ""))).length
        = ((ttsTrainIdx perm2 1 2 (validTestFrame perm1 df)).filter
            (fun p => decide (((validTestFrame perm1 df).getD p defaultRow).category
              = (frameClasses (validTestFrame perm1 df)).getD j ""))).length := by
      rw [hpv, mapped_filter_count]
      refine congrArg _ (List.filter_congr ?_)
      intro p hp
      have hp' : p < (validTestFrame perm1 df).length :=
        ttsTrainIdx_lt perm2 hperm2 1 2 (validTestFrame perm1 df) p hp
      rw [validTestFrame_getD perm1 df p hp']
    rw [htransfer, hcount]
    exact hb
  · -- stage-2 stratification, test side
    intro j hj
    have hcount := ttsTestIdx_class_count perm2 hperm2 1 2
      (validTestFrame perm1 df) hvtne j hj
    have hb := approximateMode_bounds (classCounts (validTestFrame perm1 df))
      (ttsTrainSize 1 2 (validTestFrame perm1 df).length)
      (validTestFrame perm1 df).length j (by rw [classCounts_length]; exact hj)
    have htransfer : ((splitPipeline perm1 perm2 df).testIdx.filter
        (fun i => decide ((df.getD i defaultRow).category
          = (frameClasses (validTestFrame perm1 df)).getD j ""))).length
        = ((ttsTestIdx perm2 1 2 (validTestFrame perm1 df)).filter
            (fun p => decide (((validTestFrame perm1 df).getD p defaultRow).category
              = (frameClasses (validTestFrame perm1 df)).getD j ""))).length := by
      rw [hpte, mapped_filter_count]
      refine congrArg _ (List.filter_congr ?_)
      intro p hp
      have hp' : p < (validTestFrame perm1 df).length :=
        ttsTestIdx_lt perm2 hperm2 1 2 (validTestFrame perm1 df) p hp
      rw [validTestFrame_getD perm1 df p hp']
    rw [htransfer, hcount]
    omega
  · -- train frame index reset
    rw [hftr, resetIndex_fst, resetIndex_length]
  · rw [hfva, resetIndex_fst, resetIndex_length]
  · rw [hfte, resetIndex_fst, resetIndex_length]
  · -- train frame rows
    rw [hftr, hpt, resetIndex_snd, List.map_snd_zip]
    rw [List.length_map]
  · rw [hfva, hpv, resetIndex_snd, List.map_snd_zip]
    · rw [List.map_map]
      refine List.map_congr_left ?_
      intro p hp
      have hp' : p < (validTestFrame perm1 df).length :=
        ttsTrainIdx_lt perm2 hperm2 1 2 (validTestFrame perm1 df) p hp
      simp only [Function.comp]
      rw [validTestFrame_getD perm1 df p hp']
    · rw [List.length_map, List.length_map]
  · rw [hfte, hpte, resetIndex_snd, List.map_snd_zip]
    · rw [List.map_map]
      refine List.map_congr_left ?_
      intro p hp
      have hp' : p < (validTestFrame perm1 df).length :=
        ttsTestIdx_lt perm2 hperm2 1 2 (validTestFrame perm1 df) p hp
      simp only [Function.comp]
      rw [validTestFrame_getD perm1 df p hp']
    · rw [List.length_map, List.length_map]

/-- The spec's end-to-end toy corpus: 12 rows, 3 per category. -/
def toyCorpus : List Row :=
  [{ title := "t1", category := "b" }, { title := "t2", category := "b" },
   { title := "t3", category := "b" }, { title := "t4", category := "e" },
   { title := "t5", category := "e" }, { title := "t6", category := "e" },
   { title := "t7", category := "t" }, { title := "t8", category := "t" },
   { title := "t9", category := "t" }, { title := "t10", category := "m" },
   { title := "t11", category := "m" }, { title := "t12", category := "m" }]

/-- Witness for `splitPipeline_spec` on the 12-row toy corpus with identity
shuffles: its hypotheses hold there and the split's partitions are disjoint
with sizes within one example of 8:1:1. -/
theorem splitPipeline_spec_witness :
    toyCorpus ≠ [] ∧
    List.Disjoint
      (splitPipeline (fun l => l) (fun l => l) toyCorpus).validIdx
      (splitPipeline (fun l => l) (fun l => l) toyCorpus).testIdx ∧
    8 * toyCorpus.length
      ≤ 10 * (splitPipeline (fun l => l) (fun l => l) toyCorpus).trainIdx.length + 10 := by
  have h := splitPipeline_spec (fun l => l) (fun l => l)
    (fun l => List.Perm.refl l) (fun l => List.Perm.refl l) toyCorpus (by decide)
  exact ⟨by decide, h.1.2.2, h.2.1.1⟩

/-- C8. Splitting is deterministic given the seed: the seeded shuffle is a
function of the seed alone, so two independent runs of the split pipeline
over the same corpus with the same fixed seed use identical shuffles and
produce identical train, valid and test partition contents. -/
theorem splitPipeline_deterministic (rng : Nat → List Nat → List Nat)
    (seed : Nat) (df : List Row) (r1 r2 : SplitOutput)
    (h1 : r1 = splitPipeline (rng seed) (rng seed) df)
    (h2 : r2 = splitPipeline (rng seed) (rng seed) df) :
    r1 = r2 := by
  rw [h1, h2]

/-- Witness for `splitPipeline_deterministic`: two runs over the toy corpus
with seed 123 coincide. -/
theorem splitPipeline_deterministic_witness :
    splitPipeline ((fun _ l => l) (123 : Nat)) ((fun _ l => l) (123 : Nat)) toyCorpus
      = splitPipeline ((fun _ l => l) (123 : Nat)) ((fun _ l => l) (123 : Nat)) toyCorpus :=
  splitPipeline_deterministic (fun _ l => l) 123 toyCorpus _ _ rfl rfl

/-! ### The dataset construction and training stage of `__main__` -/

/-- The item sequence a torch `DataLoader` reads from a `CreateDataset`:
    `d[0], …, d[len(d)-1]`. -/
def CreateDataset.items (d : CreateDataset) : List Item :=
  (List.range (CreateDataset.size d)).map (fun i => (d.getItem i).getD defaultItem)

/-- Cast a 0/1 label matrix to the numeric matrix `torch.Tensor` holds. -/
def ratMatrix (m : List (List Nat)) : List (List ℚ) :=
  m.map (fun r => r.map (fun x => (x : ℚ)))

/-- Everything the post-split stage of `__main__` produces. -/
structure MainRun (M O : Type) where
  dataset_train : CreateDataset
  dataset_valid : CreateDataset
  dataset_test : CreateDataset
  log : TrainResult M O
  acc_train : ℚ
  acc_valid : ℚ
  acc_test : ℚ

/-- Lines 192-228 of the script, after the split: one-hot encode each
    partition's labels, build the three `CreateDataset` adapters from the
    first 1000 / 300 / 300 rows (`train['TITLE'][:1000]`, `y_train[:1000]`,
    `[:300]`, `[:300]`), train with batch size 4 for 4 epochs with the
    `BCEWithLogitsLoss` criterion, and compute the three final accuracies
    with `calculate_accuracy` on the same adapters.  `none` models the
    KeyError when a dummy column is missing. -/
def mainStage {M O : Type} (fw : Framework M O) (st0 : M × O)
    (tOrd mOrd : Nat → List Nat) (tok : Tokenizer)
    (trainT validT testT : List String) (trainC validC testC : List String) :
    Option (MainRun M O) :=
  match oneHotEncode trainC, oneHotEncode validC, oneHotEncode testC with
  | some y_train, some y_valid, some y_test =>
    let max_len := 20
    let dataset_train : CreateDataset :=
      { X := trainT.take 1000, y := (ratMatrix y_train).take 1000,
        tokenizer := tok, max_len := max_len }
    let dataset_valid : CreateDataset :=
      { X := validT.take 300, y := (ratMatrix y_valid).take 300,
        tokenizer := tok, max_len := max_len }
    let dataset_test : CreateDataset :=
      { X := testT.take 300, y := (ratMatrix y_test).take 300,
        tokenizer := tok, max_len := max_len }
    let log := train_model fw Criterion.bceWithLogitsLoss
      (CreateDataset.items dataset_train) (CreateDataset.items dataset_valid)
      4 tOrd mOrd 4 st0
    some { dataset_train := dataset_train, dataset_valid := dataset_valid,
           dataset_test := dataset_test, log := log,
           acc_train := calculate_accuracy (fw.forwardEval log.finalState.1)
             (CreateDataset.items dataset_train),
           acc_valid := calculate_accuracy (fw.forwardEval log.finalState.1)
             (CreateDataset.items dataset_valid),
           acc_test := calculate_accuracy (fw.forwardEval log.finalState.1)
             (CreateDataset.items dataset_test) }
  | _, _, _ => none

/-- C9. Whenever the label encoders succeed, the pipeline's dataset
adapters are built from only a prefix of each partition — the first 1000
training rows and the first 300 validation and test rows — and the
training run, its per-epoch metrics and the three final accuracies are all
computed over exactly these truncated adapters. -/
theorem mainStage_truncates {M O : Type} (fw : Framework M O) (st0 : M × O)
    (tOrd mOrd : Nat → List Nat) (tok : Tokenizer)
    (trainT validT testT : List String) (trainC validC testC : List String)
    (yt yv ys : List (List Nat))
    (h1 : oneHotEncode trainC = some yt)
    (h2 : oneHotEncode validC = some yv)
    (h3 : oneHotEncode testC = some ys) :
    (mainStage fw st0 tOrd mOrd tok trainT validT testT trainC validC testC).isSome
    ∧ ∀ r : MainRun M O,
      mainStage fw st0 tOrd mOrd tok trainT validT testT trainC validC testC
        = some r →
      r.dataset_train.X = trainT.take 1000
      ∧ r.dataset_train.y = (ratMatrix yt).take 1000
      ∧ CreateDataset.size r.dataset_train = min 1000 (ratMatrix yt).length
      ∧ r.dataset_valid.X = validT.take 300
      ∧ r.dataset_valid.y = (ratMatrix yv).take 300
      ∧ CreateDataset.size r.dataset_valid = min 300 (ratMatrix yv).length
      ∧ r.dataset_test.X = testT.take 300
      ∧ r.dataset_test.y = (ratMatrix ys).take 300
      ∧ CreateDataset.size r.dataset_test = min 300 (ratMatrix ys).length
      ∧ r.log = train_model fw Criterion.bceWithLogitsLoss
          (CreateDataset.items r.dataset_train)
          (CreateDataset.items r.dataset_valid) 4 tOrd mOrd 4 st0
      ∧ r.acc_train = calculate_accuracy (fw.forwardEval r.log.finalState.1)
          (CreateDataset.items r.dataset_train)
      ∧ r.acc_valid = calculate_accuracy (fw.forwardEval r.log.finalState.1)
          (CreateDataset.items r.dataset_valid)
      ∧ r.acc_test = calculate_accuracy (fw.forwardEval r.log.finalState.1)
          (CreateDataset.items r.dataset_test) := by
  constructor
  · unfold mainStage
    rw [h1, h2, h3]
    rfl
  · intro r hr
    unfold mainStage at hr
    rw [h1, h2, h3] at hr
    injection hr with h
    subst h
    refine ⟨rfl, rfl, ?_, rfl, rfl, ?_, rfl, rfl, ?_, rfl, rfl, rfl, rfl⟩
    · show ((ratMatrix yt).take 1000).length = min 1000 (ratMatrix yt).length
      rw [List.length_take]
    · show ((ratMatrix yv).take 300).length = min 300 (ratMatrix yv).length
      rw [List.length_take]
    · show ((ratMatrix ys).take 300).length = min 300 (ratMatrix ys).length
      rw [List.length_take]

/-- Witness for `mainStage_truncates` on a four-row corpus whose partitions
each contain the four categories once. -/
theorem mainStage_truncates_witness :
    oneHotEncode ["b", "e", "t", "m"]
      = some [[1, 0, 0, 0], [0, 1, 0, 0], [0, 0, 1, 0], [0, 0, 0, 1]] ∧
    ∃ r : MainRun Nat Nat,
      mainStage
        { forwardTrain := fun _ _ => [], forwardEval := fun _ _ => [],
          zero_grad := id, backward := fun o _ => o, step := fun m o => (m, o),
          criterionVal := fun _ _ => 0 }
        ((0 : Nat), (0 : Nat)) (fun _ => []) (fun _ => [])
        { rawTokens := fun _ => [5], clsId := 101, sepId := 102, padId := 0 }
        ["a", "b", "c", "d"] ["a", "b", "c", "d"] ["a", "b", "c", "d"]
        ["b", "e", "t", "m"] ["b", "e", "t", "m"] ["b", "e", "t", "m"]
        = some r
      ∧ r.dataset_train.X = (["a", "b", "c", "d"]).take 1000
      ∧ r.dataset_train.y
          = (ratMatrix [[1, 0, 0, 0], [0, 1, 0, 0], [0, 0, 1, 0], [0, 0, 0, 1]]).take 1000
      ∧ CreateDataset.size r.dataset_train
          = min 1000 (ratMatrix [[1, 0, 0, 0], [0, 1, 0, 0], [0, 0, 1, 0], [0, 0, 0, 1]]).length := by
  have henc : oneHotEncode ["b", "e", "t", "m"]
      = some [[1, 0, 0, 0], [0, 1, 0, 0], [0, 0, 1, 0], [0, 0, 0, 1]] := by
    have h := oneHotEncode_spec ["b", "e", "t", "m"]
      (by intro c hc; exact hc) (by intro v hv; exact hv)
    rw [h.1]
    rfl
  have h := mainStage_truncates
    { forwardTrain := fun _ _ => [], forwardEval := fun _ _ => [],
      zero_grad := id, backward := fun o _ => o, step := fun m o => (m, o),
      criterionVal := fun _ _ => 0 }
    ((0 : Nat), (0 : Nat)) (fun _ => []) (fun _ => [])
    { rawTokens := fun _ => [5], clsId := 101, sepId := 102, padId := 0 }
    ["a", "b", "c", "d"] ["a", "b", "c", "d"] ["a", "b", "c", "d"]
    ["b", "e", "t", "m"] ["b", "e", "t", "m"] ["b", "e", "t", "m"]
    _ _ _ henc henc henc
  obtain ⟨r, hr⟩ := Option.isSome_iff_exists.mp h.1
  have hc := h.2 r hr
  exact ⟨henc, r, hr, hc.1, hc.2.1, hc.2.2.1⟩
